import Mathlib

/-!
Verification development for a SMILES (chemical line notation) parser.

The embedding follows the two TypeScript sources of the repository:
`src/classes/SMILES.ts` (the recursive parser, validation pipeline and
`ParsedSMILES`) and `src/classes/Molecule.ts` (the molecular-graph
algorithms).  Collaborator modules that are not part of those two files
(`Group`, `Ring`, `data-vars`, `utils`) are modelled from the design
specification; each such definition carries a doc comment starting with
`Modelled from the spec:`.

Conventions of the embedding:
* SMILES text is a `List Char`.
* JavaScript objects keyed by numeric ids (`{ [id: number]: Group }`,
  `openRings`) are association lists kept in ascending key order, which is
  the enumeration order of `for..in` over numeric keys.
* Object identity for `Ring` values is represented by a unique `id` field
  equal to the ring position in the global ring list.
* Bond-order weights are exact multiples of one half in the source, so
  they are embedded exactly as half-units over `Nat` (single = 2,
  aromatic = 3); valence tables keep their source values and are doubled
  at each comparison site.
* Exceptions are `Except AdvError`; each distinct `throw` site of the
  source has its own `ErrKind` constructor.  Loops without a structural
  termination measure take a fuel argument; running out of fuel is the
  distinguished error `ErrKind.fuelExhausted`, never produced by the
  source itself.
-/

namespace SmilesParser

/-- Error kinds, one per `throw` site of the source that our claims can
reach, plus `fuelExhausted` for the fuel-based loop embedding. -/
inductive ErrKind where
  | unexpectedSeparator
  | bondEndOfInput
  | aromaticBondOutsideRing
  | aromaticBondNonAromaticRing
  | unmatchedBrace
  | unexpectedChargeClause
  | invalidChargeString
  | unmatchedBracket
  | expectedElement
  | inorganicParseError
  | unmatchedParen
  | emptyChain
  | chainWithoutParent
  | unexpectedRingDigit
  | invalidDigitString
  | duplicateRingDigits
  | notOrganicElement
  | expectedAtom
  | bondBetweenSeparatedStructures
  | unexpectedBond
  | incompleteReaction
  | ringBridgesMolecules
  | unclosedRing
  | ringResolutionFailed
  | expectedLowercaseRingAtom
  | unexpectedLowercaseRingAtom
  | aromaticRingBondMissing
  | aromaticRingBondNotAromatic
  | lowercaseOutsideRing
  | invalidBondCount
  | generationFailed
  | fuelExhausted
deriving DecidableEq, Repr

/-- The positioned error object (`AdvError` in the source); only the kind
and the column offset into the original input are modelled, not the
layered message strings. -/
structure AdvError where
  kind : ErrKind
  col : Nat
deriving DecidableEq, Repr

/-- Bond record (`IBond`): a type tag character among `-`, `=`, `#`, `:`
plus the destination group id. -/
structure Bond where
  bond : Char
  dest : Nat
deriving DecidableEq, Repr

/-- Modelled from the spec: the organic subset table of `data-vars.ts`
(elements allowed unbracketed, with their declared allowed valences in
ascending order). -/
def organicSubset : List (String × List Nat) :=
  [("B", [3]), ("C", [4]), ("N", [3, 5]), ("O", [2]), ("P", [3, 5]),
   ("S", [2, 4, 6]), ("F", [1]), ("Cl", [1]), ("Br", [1]), ("I", [1]),
   ("H", [1])]

/-- Modelled from the spec: the whitelist of lowercase aromatic shorthand
symbols of `data-vars.ts`. -/
def lowercaseRingAtoms : List String :=
  ["b", "c", "n", "o", "p", "s"]

/-- Modelled from the spec: the element symbol table of `data-vars.ts`
used by `extractElement`; two-letter symbols first so that the longest
valid match wins. -/
def symbols : List String :=
  ["Cl", "Br", "B", "C", "N", "O", "P", "S", "F", "I", "H",
   "b", "c", "n", "o", "p", "s"]

/-- Modelled from the spec: the atomic-mass table of `data-vars.ts`
(only the organic-subset entries are needed here). -/
def masses : List (String × Nat) :=
  [("H", 1), ("B", 11), ("C", 12), ("N", 14), ("O", 16), ("F", 19),
   ("P", 31), ("S", 32), ("Cl", 35), ("Br", 80), ("I", 127)]

/-- Look up an element in the organic-subset table. -/
def organicSubsetLookup (el : String) : Option (List Nat) :=
  (organicSubset.find? (fun p => p.1 = el)).map (·.2)

/-- Modelled from the spec: `isBondChar` of `utils.ts` recognises the four
bond symbols. -/
def isBondChar (c : Char) : Bool :=
  c = '-' || c = '=' || c = '#' || c = ':'

/-- Modelled from the spec: `getBondNumber` of `utils.ts`; single = 1,
double = 2, triple = 3, aromatic = 3/2 (fractional bond order).  Every
weight the source manipulates is an exact multiple of one half, so
weights are embedded exactly as half-units over `Nat`: this function
returns TWICE the source weight (single = 2, aromatic = 3). -/
def getBondNumber (c : Char) : Nat :=
  if c = '-' then 2
  else if c = '=' then 4
  else if c = '#' then 6
  else if c = ':' then 3
  else 0

/-- Decide whether a character is an ASCII decimal digit (the source
regex `_regexNum` applied to one character). -/
def isDigitChar (c : Char) : Bool :=
  '0' ≤ c && c ≤ '9'

/-- Check that `pre` is an initial segment of `s`. -/
def startsWith : List Char → List Char → Bool
  | [], _ => true
  | _ :: _, [] => false
  | p :: ps, c :: cs => p = c && startsWith ps cs

/-- Modelled from the spec: `extractElement` of `utils.ts` matches the
longest element symbol (bare or lowercase shorthand) at the head of the
input. -/
def extractElement (s : List Char) : Option String :=
  symbols.find? (fun sym => startsWith sym.data s)

/-- Modelled from the spec: uppercase the first character of a lowercase
shorthand symbol (`extracted[0].toUpperCase() + extracted.substring(1)`). -/
def capitalizeSymbol (s : String) : String :=
  match s.data with
  | [] => ""
  | c :: cs => String.mk (c.toUpper :: cs)

/-- Scanner core of `extractBetweenMatching`: consume until the nesting
depth of `o`/`c` delimiters returns to zero, returning the consumed
characters (without the final close delimiter) and the remaining depth. -/
def extractBetweenCore (o c : Char) : List Char → Nat → (List Char × Nat)
  | [], depth => ([], depth)
  | x :: xs, depth =>
    if x = c then
      if depth = 1 then ([], 0)
      else
        let r := extractBetweenCore o c xs (depth - 1)
        (x :: r.1, r.2)
    else if x = o then
      let r := extractBetweenCore o c xs (depth + 1)
      (x :: r.1, r.2)
    else
      let r := extractBetweenCore o c xs depth
      (x :: r.1, r.2)

/-- Modelled from the spec: `extractBetweenMatching` of `utils.ts`.  The
head of `s` is the open delimiter; returns the extracted body and the
`openCount` (0 exactly when the matching close delimiter was found). -/
def extractBetweenMatching (s : List Char) (o c : Char) : (List Char × Nat) :=
  match s with
  | [] => ([], 0)
  | _ :: rest => extractBetweenCore o c rest 1

/-- Interpret a digit character as a number. -/
def digitVal (ch : Char) : Nat := ch.toNat - '0'.toNat

/-- Read a maximal run of decimal digits, returning the value and length. -/
def readDigits : List Char → Nat → Nat → (Nat × Nat)
  | [], acc, len => (acc, len)
  | ch :: rest, acc, len =>
    if isDigitChar ch then readDigits rest (acc * 10 + digitVal ch) (len + 1)
    else (acc, len)

/-- Digit-run scanner entered after a `%`: accumulate the number; at the
end of the run emit it (a bare `%` with no digits emits a `none`
standing for `NaN`), continuing the scan when another `%` follows.  The
returned length counts the digits plus one for the introducing `%`. -/
def parseDigitsPct : List Char → Nat → Nat → (List (Option Nat) × Nat)
  | [], acc, len => if len = 0 then ([none], 1) else ([some acc], len + 1)
  | c :: rest, acc, len =>
    if isDigitChar c then parseDigitsPct rest (acc * 10 + digitVal c) (len + 1)
    else if len = 0 then ([none], 1)
    else if c = '%' then
      let r := parseDigitsPct rest 0 0
      (some acc :: r.1, r.2 + len + 1)
    else ([some acc], len + 1)

/-- Modelled from the spec: `parseDigitString` of `utils.ts`.  Consumes
ring-closure digits at the head of the input: a bare digit stands for
itself, a `%` introduces a multi-digit number (`%NN` form); a `%` not
followed by a digit yields a `none` entry (`NaN` in the source).  Returns
the digit list and the number of consumed characters (`endIndex`). -/
def parseDigitString : List Char → (List (Option Nat) × Nat)
  | [] => ([], 0)
  | ch :: rest =>
    if isDigitChar ch then
      let r := parseDigitString rest
      (some (digitVal ch) :: r.1, r.2 + 1)
    else if ch = '%' then
      parseDigitsPct rest 0 0
    else ([], 0)

/-- Modelled from the spec: `parseChargeString` of `utils.ts`.  A charge
clause is either sign-then-optional-magnitude (regex 1) or
magnitude-then-sign (regex 2); returns `none` for anything else (`NaN`
in the source). -/
def parseChargeString (s : List Char) : Option Int :=
  match s with
  | '+' :: rest =>
    if rest = [] then some 1
    else
      let (v, len) := readDigits rest 0 0
      if len = rest.length then some (Int.ofNat v) else none
  | '-' :: rest =>
    if rest = [] then some (-1)
    else
      let (v, len) := readDigits rest 0 0
      if len = rest.length then some (-(Int.ofNat v)) else none
  | _ =>
    let (v, len) := readDigits s 0 0
    if len = 0 then none
    else match s.drop len with
      | ['+'] => some (Int.ofNat v)
      | ['-'] => some (-(Int.ofNat v))
      | _ => none

/-- Modelled from the spec: `extractDuplicates` of `utils.ts` returns the
values that occur more than once in the input. -/
def extractDuplicates (l : List (Option Nat)) : List (Option Nat) :=
  (l.filter (fun x => 1 < l.count x)).dedup

/-- Result record of `parseInorganicString`. -/
structure InorganicInfo where
  elements : List (String × Nat)
  charge : Int
  isRadical : Bool
  atomicMass : Option Nat
  error : Option ErrKind
deriving DecidableEq, Repr

/-- Add `count` to the entry for `key` in an insertion-ordered
string-to-count association list (the `Map` used for group elements). -/
def bumpElement (l : List (String × Nat)) (key : String) (count : Nat) :
    List (String × Nat) :=
  if (l.find? (fun p => p.1 = key)).isSome then
    l.map (fun p => if p.1 = key then (p.1, p.2 + count) else p)
  else l ++ [(key, count)]

/-- Read one bracket-body item after the element: an explicit hydrogen
count `H<n>`. -/
def readHydrogenCount (s : List Char) : Option (Nat × Nat) :=
  match s with
  | 'H' :: rest =>
    let (v, len) := readDigits rest 0 0
    if len = 0 then some (1, 1) else some (v, len + 1)
  | _ => none

/-- Modelled from the spec: `parseInorganicString` of `utils.ts`, the
bracket-atom body grammar: optional leading integer (isotopic mass), an
element symbol (longest match wins), optional explicit hydrogen count,
optional charge suffix, optional radical marker `.` (recognised only when
radicals are enabled).  An elementless body or trailing garbage is an
error. -/
def parseInorganicString (s : List Char) (enableRadicals : Bool) : InorganicInfo :=
  let (massV, massLen) := readDigits s 0 0
  let atomicMass := if massLen = 0 then none else some massV
  let afterMass := s.drop massLen
  match extractElement afterMass with
  | none =>
    { elements := [], charge := 0, isRadical := false,
      atomicMass := atomicMass, error := some ErrKind.expectedElement }
  | some el =>
    let afterEl := afterMass.drop el.data.length
    let (hCount, hLen) := match readHydrogenCount afterEl with
      | some (n, len) => (n, len)
      | none => (0, 0)
    let afterH := afterEl.drop hLen
    let (isRadical, afterRad) := match afterH.getLast? with
      | some '.' => (enableRadicals, if enableRadicals then afterH.dropLast else afterH)
      | _ => (false, afterH)
    let charge := if afterRad = [] then some (0 : Int) else parseChargeString afterRad
    let elements :=
      if hCount = 0 then [(el, 1)] else bumpElement [(el, 1)] "H" hCount
    match charge with
    | none =>
      { elements := elements, charge := 0, isRadical := isRadical,
        atomicMass := atomicMass, error := some ErrKind.inorganicParseError }
    | some q =>
      { elements := elements, charge := q, isRadical := isRadical,
        atomicMass := atomicMass, error := none }

/-- Modelled from the spec: the Atom-Group node (`Group.ts`): unique id,
ordered element-to-count mapping, charge, radical flag, optional
atomic-mass override, lowercase-aromatic-shorthand flag, branch depth,
attached ring-closure digits, outgoing bonds, source position/length, and
the implicit flag for synthesized hydrogens. -/
structure Group where
  id : Nat
  elements : List (String × Nat)
  charge : Int
  isRadical : Bool
  atomicMass : Option Nat
  isLowercase : Bool
  chainDepth : Nat
  ringDigits : List Nat
  bonds : List Bond
  smilesStringPosition : Nat
  smilesStringLength : Nat
  isImplicit : Bool
deriving DecidableEq, Repr

/-- Modelled from the spec: `new Group({ chainDepth })` with a fresh id. -/
def Group.mkNew (id chainDepth : Nat) : Group :=
  { id := id, elements := [], charge := 0, isRadical := false,
    atomicMass := none, isLowercase := false, chainDepth := chainDepth,
    ringDigits := [], bonds := [], smilesStringPosition := 0,
    smilesStringLength := 0, isImplicit := false }

/-- Modelled from the spec: `Group#setSMILESposInfo`. -/
def Group.setSMILESposInfo (g : Group) (pos len : Nat) : Group :=
  { g with smilesStringPosition := pos, smilesStringLength := len }

/-- Modelled from the spec: `Group#addElement` bumps the count in the
insertion-ordered element map. -/
def Group.addElement (g : Group) (key : String) (count : Nat) : Group :=
  { g with elements := bumpElement g.elements key count }

/-- Modelled from the spec: `Group#addBond` appends a bond record to this
group (the bond is stored on one endpoint only). -/
def Group.addBond (g : Group) (bond : Char) (destId : Nat) : Group :=
  { g with bonds := g.bonds ++ [{ bond := bond, dest := destId }] }

/-- First element symbol of the group (`Array.from(elements.keys())[0]`). -/
def Group.firstElement (g : Group) : Option String :=
  (g.elements.head?).map (·.1)

/-- Modelled from the spec: `Group#inOrganicSubset` holds for
single-element groups whose element is in the organic subset. -/
def Group.inOrganicSubset (g : Group) : Bool :=
  g.elements.length = 1 &&
    (match g.firstElement with
     | some el => (organicSubsetLookup el).isSome
     | none => false)

/-- Modelled from the spec: `Group#isElement` tests the single element
symbol of the group. -/
def Group.isElement (g : Group) (el : String) : Bool :=
  g.elements.length = 1 && g.firstElement = some el

/-- Decimal digit character for a value below ten. -/
def digitChar (n : Nat) : Char :=
  Char.ofNat ('0'.toNat + n)

/-- Fuel-driven decimal rendering loop. -/
def natReprGo : Nat → Nat → List Char
  | 0, _ => []
  | fuel + 1, n =>
    if n < 10 then [digitChar n]
    else natReprGo fuel (n / 10) ++ [digitChar (n % 10)]

/-- Decimal rendering of a natural number. -/
def natRepr (n : Nat) : List Char :=
  natReprGo (n + 1) n

/-- Render an element entry of a bracket group (count suffixed when
greater than one). -/
def elementEntryString (p : String × Nat) : List Char :=
  p.1.data ++ (if p.2 ≤ 1 then [] else natRepr p.2)

/-- Modelled from the spec: `Group#getElementString` concatenates the
element map entries, count-suffixed. -/
def Group.getElementString (g : Group) : String :=
  String.mk (g.elements.flatMap elementEntryString)

/-- Charge suffix used inside a bracket rendering. -/
def chargeSuffix (q : Int) : List Char :=
  if q = 0 then []
  else if q = 1 then ['+']
  else if q = -1 then ['-']
  else if 0 < q then natRepr q.toNat ++ ['+']
  else natRepr (-q).toNat ++ ['-']

/-- Modelled from the spec: `Group#toString`, the notation rendering of a
single atom: a bare symbol (lowercased for aromatic shorthand) for plain
neutral single organic atoms, otherwise the bracketed form with optional
isotopic mass, element string, charge and radical marker. -/
def Group.render (g : Group) : List Char :=
  let plain := g.elements.length = 1 && g.charge = 0 && !g.isRadical &&
    g.atomicMass.isNone && g.inOrganicSubset
  match g.firstElement with
  | none => []
  | some el =>
    if plain then
      if g.isLowercase then
        match el.data with
        | [] => []
        | c :: cs => c.toLower :: cs
      else el.data
    else
      ['['] ++
        (match g.atomicMass with
         | some m => (Nat.repr m).data
         | none => []) ++
        g.getElementString.data ++ chargeSuffix g.charge ++
        (if g.isRadical then ['.'] else []) ++ [']']

/-- The Ring registry record (`Rings.ts`): digit label, start and end
group ids (`ringEnd` models the `end` field, unset until the digit
recurs), tri-state aromaticity flag, and the ordered member list.  The
`id` field stands for object identity and equals the ring position in
the global ring list. -/
structure Ring where
  id : Nat
  digit : Nat
  start : Nat
  ringEnd : Option Nat
  isAromatic : Option Bool
  members : List Nat
deriving DecidableEq, Repr

/-- A Molecule (`Molecule.ts`): the id-to-group mapping it owns (an
association list in ascending id order, the `for..in` enumeration order)
and the ids of the rings fully contained in it. -/
structure Molecule where
  groups : List (Nat × Group)
  rings : List Nat
deriving DecidableEq, Repr

/-- The empty molecule (`new Molecule()`). -/
def Molecule.empty : Molecule := { groups := [], rings := [] }

/-- Lookup a group by id. -/
def Molecule.findGroup (m : Molecule) (id : Nat) : Option Group :=
  (m.groups.find? (fun p => p.1 = id)).map (·.2)

/-- Bonds stored on a group of the molecule (empty when absent; the
source would fault on an absent id, which no caller does). -/
def Molecule.ownBonds (m : Molecule) (id : Nat) : List Bond :=
  match m.findGroup id with
  | some g => g.bonds
  | none => []

/-- `Molecule#getAllBonds`: the group's own bond records followed by, for
every other group in map order, a copy of each of its bonds pointing at
`groupID` with the `dest` field rewritten to that other group's id. -/
def Molecule.getAllBonds (m : Molecule) (groupID : Nat) : List Bond :=
  m.ownBonds groupID ++
    m.groups.flatMap (fun p =>
      if p.1 = groupID then []
      else
        (p.2.bonds.filter (fun b => b.dest = groupID)).map
          (fun b => { bond := b.bond, dest := p.1 }))

/-- `Molecule#getBond`: the stored bond between two ids, trying the first
group's list then the second's. -/
def Molecule.getBond (m : Molecule) (id1 id2 : Nat) : Option Bond :=
  match (m.ownBonds id1).find? (fun b => b.dest = id2) with
  | some b => some b
  | none => (m.ownBonds id2).find? (fun b => b.dest = id1)

/-- `Molecule#getBondCount`: total bond-order weight touching a group
(in half-units): the weights of its own bonds plus the weights of every
other group's bonds pointing at it. -/
def Molecule.getBondCount (m : Molecule) (groupID : Nat) : Nat :=
  ((m.ownBonds groupID).map (fun b => getBondNumber b.bond)).sum +
    ((m.groups.flatMap (fun p =>
      if p.1 = groupID then []
      else p.2.bonds.filter (fun b => b.dest = groupID))).map
        (fun b => getBondNumber b.bond)).sum

/-- Iteration count of the JavaScript loop `for (let h = 0; h < q; h++)`
for a bound of `h` half-units: zero when the bound is non-positive,
otherwise the ceiling of `h / 2`. -/
def halfCeil (h : Nat) : Nat :=
  (h + 1) / 2

/-- One synthesized implicit hydrogen group. -/
def implicitHydrogen (id chainDepth : Nat) : Group :=
  { Group.mkNew id chainDepth with
      elements := [("H", 1)], isImplicit := true }

/-- Append `k` implicit hydrogens for group `gid`: each new hydrogen is
added to the molecule map and singly bonded from `gid` (the bond is
stored on `gid`, as `group.addBond('-', H)` does). -/
def appendHydrogens (m : Molecule) (gid : Nat) (depth : Nat) (nid k : Nat) :
    Molecule :=
  { m with groups :=
      (m.groups.map (fun p =>
        if p.1 = gid then
          (p.1, { p.2 with bonds := p.2.bonds ++
            (List.range k).map (fun j => { bond := '-', dest := nid + j }) })
        else p)) ++
      (List.range k).map (fun j =>
        (nid + j, implicitHydrogen (nid + j) (depth + 1))) }

/-- One iteration of the `Molecule#addImplicitHydrogens` loop for the
group id `gid` (newly added hydrogens are not re-visited, matching
`for..in` over the keys present at loop start; visiting them would be a
no-op anyway since a hydrogen already carries its one bond).  The
fresh-id counter models the global `Group` id counter. -/
def implicitHydrogenStep (m : Molecule) (nid gid : Nat) : Molecule × Nat :=
  match m.findGroup gid with
  | none => (m, nid)
  | some group =>
    if !group.isRadical && group.inOrganicSubset then
      if group.charge = 0 then
        match group.firstElement with
        | none => (m, nid)
        | some el =>
          match (organicSubsetLookup el).getD [] |>.find?
              (fun n => m.getBondCount group.id ≤ 2 * n) with
          | none => (m, nid)
          | some targetBonds =>
            (appendHydrogens m group.id group.chainDepth nid
              (halfCeil (2 * targetBonds - m.getBondCount group.id)),
             nid + halfCeil (2 * targetBonds - m.getBondCount group.id))
      else (m, nid)
    else (m, nid)

/-- The loop itself threads the state through `implicitHydrogenStep`
over the snapshot ids. -/
def addImplicitHydrogensGo (m : Molecule) (nid : Nat) :
    List Nat → Molecule × Nat
  | [] => (m, nid)
  | gid :: rest =>
    addImplicitHydrogensGo (implicitHydrogenStep m nid gid).1
      (implicitHydrogenStep m nid gid).2 rest

/-- `Molecule#addImplicitHydrogens`: for each neutral, non-radical,
organic-subset atom, find the first allowed valence that is at least the
current bond-count weight and bond that many new implicit hydrogens to
it (loop-count semantics of the source: the ceiling of the rational
difference). -/
def Molecule.addImplicitHydrogens (m : Molecule) (nid : Nat) : Molecule × Nat :=
  addImplicitHydrogensGo m nid (m.groups.map (·.1))

/-- The structured result record of `Molecule#checkBondCounts` for a
violating atom. -/
structure BondCountViolation where
  group : Group
  element : String
  error : AdvError
deriving DecidableEq, Repr

/-- Loop body of `Molecule#checkBondCounts` over the group map entries. -/
def checkBondCountsGo (m : Molecule) :
    List (Nat × Group) → Option BondCountViolation
  | [] => none
  | (_, group) :: rest =>
    let bonds := m.getBondCount group.id
    if group.charge = 0 && !group.isRadical && group.inOrganicSubset then
      match group.firstElement with
      | none => checkBondCountsGo m rest
      | some el =>
        match organicSubsetLookup el with
        | none => checkBondCountsGo m rest
        | some valences =>
          if valences.head?.isSome && !(valences.any (fun n => 2 * n = bonds)) then
            some { group := group, element := el,
                   error := { kind := ErrKind.invalidBondCount,
                              col := group.smilesStringPosition } }
          else checkBondCountsGo m rest
    else checkBondCountsGo m rest

/-- `Molecule#checkBondCounts`: scan the atoms in map order; return
`none` (the source's `true`) when every neutral, non-radical,
organic-subset atom has an allowed bond-count weight, else the structured
violation record for the first offender.  (The `!isNaN(...[0])` guard of
the source corresponds to the `head?.isSome` test; no modelled valence
list contains `NaN`.) -/
def Molecule.checkBondCounts (m : Molecule) : Option BondCountViolation :=
  checkBondCountsGo m m.groups

/-- One entry of the `countAtoms` result (`IAtomCount`); `charge = none`
models the `NaN` charge used for split groups. -/
structure IAtomCount where
  atom : String
  charge : Option Int
  count : Nat
deriving DecidableEq, Repr

/-- Options record of `countAtoms` (`ICountAtoms`), each field optional
with the source defaults `splitGroups := false`, `hillSystemOrder :=
true`, `ignoreCharge := false`. -/
structure ICountAtoms where
  splitGroups : Option Bool
  hillSystemOrder : Option Bool
  ignoreCharge : Option Bool
deriving DecidableEq, Repr

/-- Replace the `i`-th element of a list using `f` (out-of-range is the
identity). -/
def modifyIdx (l : List α) (i : Nat) (f : α → α) : List α :=
  match l[i]? with
  | some x => l.set i (f x)
  | none => l

/-- First collection loop of `countAtoms`: tally per group.  Without
`splitGroups`, entries are keyed by (element string, charge); with
`splitGroups`, every constituent element of every group is appended as a
fresh entry with `NaN` charge (`atoms[element]` is never defined in the
source, so the existence test always pushes). -/
def countAtomsCollect (splitGroups ignoreCharge : Bool) :
    List (Nat × Group) → List IAtomCount × List (String × Option Int) →
      List IAtomCount × List (String × Option Int)
  | [], acc => acc
  | (_, group) :: rest, (atoms, keys) =>
    let groupCharge : Int := if ignoreCharge then 0 else group.charge
    if splitGroups then
      let acc := group.elements.foldl
        (fun (acc : List IAtomCount × List (String × Option Int)) ec =>
          (acc.1 ++ [{ atom := ec.1, charge := none, count := ec.2 }],
           acc.2 ++ [(ec.1, some groupCharge)]))
        (atoms, keys)
      countAtomsCollect splitGroups ignoreCharge rest acc
    else
      let str := group.getElementString
      let key := (str, some groupCharge)
      match keys.findIdx? (fun k => k = key) with
      | some i =>
        countAtomsCollect splitGroups ignoreCharge rest
          (modifyIdx atoms i (fun a => { a with count := a.count + 1 }), keys)
      | none =>
        countAtomsCollect splitGroups ignoreCharge rest
          (atoms ++ [{ atom := str, charge := some groupCharge, count := 1 }],
           keys ++ [key])

/-- Does the string contain a decimal digit (`_regexNum.test`)? -/
def hasDigit (s : String) : Bool :=
  s.data.any isDigitChar

/-- Deconstruction loop of `countAtoms` for `splitGroups`: numbered atom
strings are decomposed via `extractElement`/`extractInteger`, and entries
are re-aggregated by (atom, charge) key. -/
def countAtomsSplit :
    List IAtomCount → List IAtomCount × List (String × Option Int) →
      List IAtomCount
  | [], acc => acc.1
  | group :: rest, (newAtoms, keys) =>
    if hasDigit group.atom then
      match extractElement group.atom.data with
      | some atom =>
        let count := (readDigits (group.atom.data.drop atom.data.length) 0 0).1
        let key := (atom, group.charge)
        match keys.findIdx? (fun k => k = key) with
        | some i =>
          countAtomsSplit rest
            (modifyIdx newAtoms i (fun a => { a with count := a.count + count }),
             keys)
        | none =>
          countAtomsSplit rest
            (newAtoms ++ [{ atom := atom, charge := none, count := count }],
             keys ++ [key])
      | none => countAtomsSplit rest (newAtoms, keys)
    else
      let key := (group.atom, group.charge)
      match keys.findIdx? (fun k => k = key) with
      | some i =>
        countAtomsSplit rest
          (modifyIdx newAtoms i (fun a => { a with count := a.count + group.count }),
           keys)
      | none =>
        countAtomsSplit rest (newAtoms ++ [group], keys ++ [key])

/-- The JavaScript sort comparator `(a, b) => a.charge - b.charge` as a
boolean order: defined charges compare numerically; a `NaN` charge makes
the comparator return `NaN`, which `Array.prototype.sort` treats as
"equal".  Charges are uniformly defined or uniformly `NaN` in every
`countAtoms` call, so ordering `none` first (rather than "equal", which
would not be transitive) changes no reachable sort result while keeping
the relation transitive and total. -/
def chargeLEb (a b : IAtomCount) : Bool :=
  match a.charge, b.charge with
  | some x, some y => x ≤ y
  | none, _ => true
  | some _, none => false

/-- Lexicographic order on character lists by code point (the default
string comparison used by `elementKeys.sort()`). -/
def lexLEb : List Char → List Char → Bool
  | [], _ => true
  | _ :: _, [] => false
  | c :: cs, d :: ds =>
    if c = d then lexLEb cs ds
    else c < d

/-- Default string comparison of `Array.prototype.sort`. -/
def strLEb (a b : String) : Bool :=
  lexLEb a.data b.data

/-- First-occurrence key list of the non-carbon, non-hydrogen entries
(`elementKeys`). -/
def collectKeys : List IAtomCount → List String → List String
  | [], acc => acc
  | g :: rest, acc =>
    if acc.contains g.atom then collectKeys rest acc
    else collectKeys rest (acc ++ [g.atom])

/-- Hill-system ordering stage of `countAtoms`: carbons first (collected
back-to-front, then charge-sorted), hydrogens second, then the remaining
entries grouped per element string in first-occurrence order, each group
charge-sorted, the element keys sorted alphabetically. -/
def hillOrderStage (atoms : List IAtomCount) : List IAtomCount :=
  let carbons := (atoms.filter (fun a => a.atom = "C")).reverse
  let rest1 := atoms.filter (fun a => !(a.atom = "C" : Bool))
  let hydrogens := (rest1.filter (fun a => a.atom = "H")).reverse
  let rest2 := rest1.filter (fun a => !(a.atom = "H" : Bool))
  let elementKeys := collectKeys rest2 []
  let sortedKeys := elementKeys.mergeSort strLEb
  carbons.mergeSort chargeLEb ++ hydrogens.mergeSort chargeLEb ++
    sortedKeys.flatMap
      (fun k => (rest2.filter (fun a => a.atom = k)).mergeSort chargeLEb)

/-- `Molecule#countAtoms`: tally the atoms (per bracket-group string or,
with `splitGroups`, per bare element), then order via the Hill system
when enabled. -/
def Molecule.countAtoms (m : Molecule) (opts : ICountAtoms) : List IAtomCount :=
  let splitGroups := opts.splitGroups.getD false
  let hillSystemOrder := opts.hillSystemOrder.getD true
  let ignoreCharge := opts.ignoreCharge.getD false
  let collected := (countAtomsCollect splitGroups ignoreCharge m.groups ([], [])).1
  let atoms := if splitGroups then countAtomsSplit collected ([], []) else collected
  if hillSystemOrder then hillOrderStage atoms else atoms

/-- Association-list read with default (`Map#get` over the pre-seeded
maps of `pathfind`). -/
def assocGetD (l : List (Nat × α)) (k : Nat) (d : α) : α :=
  match l.find? (fun p => p.1 = k) with
  | some p => p.2
  | none => d

/-- Association-list write (`Map#set`): replace the first entry with the
key, or append. -/
def assocSet (l : List (Nat × α)) (k : Nat) (v : α) : List (Nat × α) :=
  if (l.find? (fun p => p.1 = k)).isSome then
    l.map (fun p => if p.1 = k then (p.1, v) else p)
  else l ++ [(k, v)]

/-- Main loop of `Molecule#pathfind`.  `currGroups` and `current` are the
explicit stacks of the source with the top at the head; a finished path
is recorded as the reversal of `current`.  `explored` maps each group id
to the next bond index to try — shared for the whole search, exactly as
in the source. -/
def pathfindLoop (endID : Nat) (avail : Option (List Nat))
    (allBonds : List (Nat × List Bond)) :
    Nat → List (Nat × Nat) → List Nat → List Nat → List (List Nat) →
      Except AdvError (List (List Nat))
  | 0, _, _, _, _ => .error { kind := ErrKind.fuelExhausted, col := 0 }
  | _ + 1, _, [], _, paths => .ok paths
  | fuel + 1, explored, gid :: stackRest, current, paths =>
    if gid = endID then
      pathfindLoop endID avail allBonds fuel explored stackRest
        (current.tail) (paths ++ [current.reverse])
    else
      let bonds := assocGetD allBonds gid []
      let bi := assocGetD explored gid 0
      match bonds[bi]? with
      | some b =>
        if stackRest.head? = some b.dest ||
            (match avail with
             | some l => !(l.contains b.dest)
             | none => false) then
          pathfindLoop endID avail allBonds fuel (assocSet explored gid (bi + 1))
            (gid :: stackRest) current paths
        else
          pathfindLoop endID avail allBonds fuel (assocSet explored gid (bi + 1))
            (b.dest :: gid :: stackRest) (bi :: current) paths
      | none =>
        pathfindLoop endID avail allBonds fuel explored stackRest
          (current.tail) paths

/-- `Molecule#pathfind`: enumerate paths from `startID` to `endID` (bond
index sequences) via an iterative depth-first search with a shared
per-group next-bond cursor, optionally restricted to `availableGroups`. -/
def Molecule.pathfind (m : Molecule) (startID endID : Nat)
    (avail : Option (List Nat)) (fuel : Nat) :
    Except AdvError (List (List Nat)) :=
  pathfindLoop endID avail (m.groups.map (fun p => (p.1, m.getAllBonds p.1)))
    fuel (m.groups.map (fun p => (p.1, 0))) [startID] [] []

/-- Tail of `Molecule#traceBondPath`: starting from the accumulated atom
list and its last atom, follow each bond index through `getAllBonds`;
`none` models the source fault on an out-of-range bond index. -/
def traceBondPathGo (m : Molecule) :
    List Nat → Nat → List Nat → Option (List Nat)
  | acc, _, [] => some acc
  | acc, last, c :: rest =>
    match (m.getAllBonds last)[c]? with
    | some b => traceBondPathGo m (acc ++ [b.dest]) b.dest rest
    | none => none

/-- `Molecule#traceBondPath`: map a bond-index path from `startID` to the
corresponding atom id sequence (which starts with `startID`). -/
def Molecule.traceBondPath (m : Molecule) (startID : Nat) (path : List Nat) :
    Option (List Nat) :=
  traceBondPathGo m [startID] startID path

/-- Stack item of `Molecule#generateSMILES`
(`IGenerateSmilesStackItem`): the group to render, the index of the
parent item in the stack, the bond leading to this group, the
accumulated text and the accumulated parenthesized children. -/
structure GenItem where
  group : Nat
  parent : Option Nat
  bond : Option Char
  smiles : List Char
  smilesChildren : List (List Char)
  handled : Bool
deriving DecidableEq, Repr

/-- `createGenerateSmilesStackItemObject`. -/
def GenItem.mk0 (group : Nat) (parent : Option Nat) (bond : Option Char) :
    GenItem :=
  { group := group, parent := parent, bond := bond, smiles := [],
    smilesChildren := [], handled := false }

/-- `assembleSMILES`: drop empty children, keep the last child inline and
parenthesize the others. -/
def assembleSMILES (item : GenItem) : List Char :=
  let children := item.smilesChildren.filter (fun x => !x.isEmpty)
  let lastChild := children.getLast?
  item.smiles ++
    (children.dropLast.map (fun x => '(' :: (x ++ [')']))).flatten ++
    lastChild.getD []

/-- Leading bond text for a stack item: implicit single bonds are
omitted, and an aromatic bond into a lowercase atom is omitted. -/
def genBondLead (m : Molecule) (item : GenItem) : List Char :=
  match item.bond with
  | none => []
  | some b =>
    if b = '-' then []
    else if b = ':' &&
        ((m.findGroup item.group).map (·.isLowercase)).getD false then []
    else [b]

/-- Ring-digit suffix of a rendered group (`'%' + n` per digit). -/
def genRingDigits (g : Group) : List Char :=
  if g.ringDigits.isEmpty then []
  else (g.ringDigits.map (fun n => '%' :: natRepr n)).flatten

/-- Main loop of `Molecule#generateSMILES`: the stack keeps its bottom at
the head so that stored parent indexes stay valid (the source only ever
removes the top element). -/
def generateSMILESLoop (m : Molecule) (showImplicits : Bool) :
    Nat → List GenItem → List Nat → List Char → Except AdvError (List Char)
  | 0, _, _, _ => .error { kind := ErrKind.fuelExhausted, col := 0 }
  | _ + 1, [], _, smiles => .ok smiles
  | fuel + 1, stack, doneGroups, smiles =>
    let i := stack.length - 1
    match stack[i]? with
    | none => .ok smiles
    | some item =>
      if item.handled then
        match item.parent with
        | some j =>
          let stack := modifyIdx stack j
            (fun it => { it with smilesChildren := it.smilesChildren ++ [assembleSMILES item] })
          generateSMILESLoop m showImplicits fuel (stack.take i) doneGroups smiles
        | none =>
          generateSMILESLoop m showImplicits fuel (stack.take i) doneGroups
            (assembleSMILES item ++ smiles)
      else
        match m.findGroup item.group with
        | none => .error { kind := ErrKind.generationFailed, col := 0 }
        | some group =>
          if doneGroups.contains group.id then
            generateSMILESLoop m showImplicits fuel
              (stack.set i { item with handled := true }) doneGroups smiles
          else
            let render := !group.isImplicit || showImplicits
            let item := if render then
                { item with smiles := item.smiles ++ genBondLead m item ++
                    group.render ++ genRingDigits group }
              else item
            let item := { item with handled := true }
            let bonds := m.getAllBonds group.id
            let children := (bonds.filter
              (fun b => !doneGroups.contains b.dest)).map
                (fun b => GenItem.mk0 b.dest (some i) (some b.bond))
            generateSMILESLoop m showImplicits fuel
              (stack.set i item ++ children.reverse) (doneGroups ++ [group.id])
              smiles

/-- `Molecule#generateSMILES`: depth-first re-serialization from the
first group of the map; implicit groups are skipped unless
`showImplicits`. -/
def Molecule.generateSMILES (m : Molecule) (showImplicits : Bool) (fuel : Nat) :
    Except AdvError (List Char) :=
  match m.groups.head? with
  | none => .ok []
  | some (gid, _) =>
    generateSMILESLoop m showImplicits fuel [GenItem.mk0 gid none none] [] []

/-- The recognized parse options (`IParseOptions`), each a boolean
toggle. -/
structure IParseOptions where
  enableSeperatedStructures : Bool
  enableReaction : Bool
  enableMultipleReactions : Bool
  enableAromaticity : Bool
  enableChargeClauses : Bool
  cumulativeCharge : Bool
  enableInorganicAtoms : Bool
  enableChains : Bool
  enableRings : Bool
  enableRadicals : Bool
  showImplcitAtomicMass : Bool
  addImplicitHydrogens : Bool
  checkBondCount : Bool
deriving DecidableEq, Repr

/-- Write one parse option by its string key
(`parseOptions[key] = parseOptionsOverride[key]`); unknown keys leave
the record unchanged (in the source they create unread stray
properties). -/
def setParseOption (o : IParseOptions) (key : String) (v : Bool) :
    IParseOptions :=
  if key = "enableSeperatedStructures" then { o with enableSeperatedStructures := v }
  else if key = "enableReaction" then { o with enableReaction := v }
  else if key = "enableMultipleReactions" then { o with enableMultipleReactions := v }
  else if key = "enableAromaticity" then { o with enableAromaticity := v }
  else if key = "enableChargeClauses" then { o with enableChargeClauses := v }
  else if key = "cumulativeCharge" then { o with cumulativeCharge := v }
  else if key = "enableInorganicAtoms" then { o with enableInorganicAtoms := v }
  else if key = "enableChains" then { o with enableChains := v }
  else if key = "enableRings" then { o with enableRings := v }
  else if key = "enableRadicals" then { o with enableRadicals := v }
  else if key = "showImplcitAtomicMass" then { o with showImplcitAtomicMass := v }
  else if key = "addImplicitHydrogens" then { o with addImplicitHydrogens := v }
  else if key = "checkBondCount" then { o with checkBondCount := v }
  else o

/-- The per-call merge `{ ...this.parseOptions }` updated by the override
map: the stored record is copied and the override entries are written
into the copy. -/
def mergeParseOptions (base : IParseOptions) (ov : List (String × Bool)) :
    IParseOptions :=
  ov.foldl (fun o kv => setParseOption o kv.1 kv.2) base

/-- The parse result (`ParsedSMILES`): original input, effective options,
the molecule list, the open-ring registry (digit to ring id, in
ascending digit order — the `for..in` enumeration order of the source
object), the global ring list (a ring's `id` is its position here), and
the reaction-boundary indexes. -/
structure ParsedSMILES where
  smiles : List Char
  parseOptions : IParseOptions
  molecules : List Molecule
  openRings : List (Nat × Nat)
  rings : List Ring
  reactionIndexes : List Int
deriving DecidableEq, Repr

/-- Fresh parse result over an input (`new ParsedSMILES(smiles, opts)`). -/
def ParsedSMILES.mk0 (smiles : List Char) (opts : IParseOptions) :
    ParsedSMILES :=
  { smiles := smiles, parseOptions := opts, molecules := [Molecule.empty],
    openRings := [], rings := [], reactionIndexes := [] }

/-- Global group lookup (`ParsedSMILES#groupMap`): the union of the
molecule maps; ids are assigned in creation order and groups are always
added to the newest molecule, so concatenation preserves ascending id
order. -/
def ParsedSMILES.findGroup (ps : ParsedSMILES) (gid : Nat) : Option Group :=
  ((ps.molecules.flatMap (·.groups)).find? (fun p => p.1 = gid)).map (·.2)

/-- All (id, group) entries of the global map in `for..in` order. -/
def ParsedSMILES.allGroups (ps : ParsedSMILES) : List (Nat × Group) :=
  ps.molecules.flatMap (·.groups)

/-- Rewrite the group with the given id wherever it is stored. -/
def ParsedSMILES.updateGroup (ps : ParsedSMILES) (gid : Nat)
    (f : Group → Group) : ParsedSMILES :=
  { ps with molecules := ps.molecules.map (fun m =>
      { m with groups := m.groups.map (fun p =>
          if p.1 = gid then (p.1, f p.2) else p) }) }

/-- Rewrite the ring with the given id in the global ring list. -/
def ParsedSMILES.updateRing (ps : ParsedSMILES) (rid : Nat)
    (f : Ring → Ring) : ParsedSMILES :=
  { ps with rings := ps.rings.map (fun r => if r.id = rid then f r else r) }

/-- Ring lookup by id. -/
def ParsedSMILES.findRing (ps : ParsedSMILES) (rid : Nat) : Option Ring :=
  ps.rings.find? (fun r => r.id = rid)

/-- Append a group to the last molecule
(`ps.molecules[ps.molecules.length - 1].groups[g.ID] = g`). -/
def ParsedSMILES.pushGroupToLastMolecule (ps : ParsedSMILES) (g : Group) :
    ParsedSMILES :=
  let upd := modifyIdx ps.molecules (ps.molecules.length - 1)
    (fun m => { m with groups := m.groups ++ [(g.id, g)] })
  { ps with molecules := upd }

/-- Insert an open-ring entry keeping ascending digit order (numeric
object keys enumerate in ascending order). -/
def insertOpenRing : List (Nat × Nat) → Nat → Nat → List (Nat × Nat)
  | [], d, rid => [(d, rid)]
  | (d0, r0) :: rest, d, rid =>
    if d < d0 then (d, rid) :: (d0, r0) :: rest
    else (d0, r0) :: insertOpenRing rest d rid

/-- `ParsedSMILES#removeMolecule`: remove the first occurrence of the
molecule; drop its rings from the global ring list and shift the
reaction-boundary indexes at or after the removal position down by one.
Returns `false` and the unchanged result when the molecule is absent. -/
def ParsedSMILES.removeMolecule (ps : ParsedSMILES) (mol : Molecule) :
    Bool × ParsedSMILES :=
  match ps.molecules.findIdx? (fun m => m = mol) with
  | none => (false, ps)
  | some i =>
    (true,
      { ps with
          molecules := ps.molecules.eraseIdx i,
          reactionIndexes := ps.reactionIndexes.map
            (fun ri => if (i : Int) ≤ ri then ri - 1 else ri),
          rings := ps.rings.filter (fun r => !mol.rings.contains r.id) })

/-- Separator text between molecules `i` and `i + 1` of
`ParsedSMILES#generateSMILES`: a reaction arrow when `i` is a recorded
boundary (doubled when the following boundary equals `i` too), else a
disconnected-structure dot. -/
def moleculeSeparator (reactionIndexes : List Int) (i : Nat) : List Char :=
  match reactionIndexes.findIdx? (fun n => n = (i : Int)) with
  | none => ['.']
  | some j =>
    if reactionIndexes[j + 1]? = some (i : Int) then ['>', '>'] else ['>']

/-- Body of `ParsedSMILES#generateSMILES`: concatenate the molecule
serializations joined by their separators. -/
def generateSMILESJoin (ris : List Int) (showImplicits : Bool) (fuel : Nat) :
    List Molecule → Nat → Except AdvError (List Char)
  | [], _ => .ok []
  | [m] , _ => m.generateSMILES showImplicits fuel
  | m :: rest, i => do
    let s ← m.generateSMILES showImplicits fuel
    let r ← generateSMILESJoin ris showImplicits fuel rest (i + 1)
    pure (s ++ moleculeSeparator ris i ++ r)

/-- `ParsedSMILES#generateSMILES`. -/
def ParsedSMILES.generateSMILES (ps : ParsedSMILES) (showImplicits : Bool)
    (fuel : Nat) : Except AdvError (List Char) :=
  generateSMILESJoin ps.reactionIndexes showImplicits fuel ps.molecules 0

/-- Atomic-mass lookup by element symbol. -/
def massLookup (el : String) : Option Nat :=
  (masses.find? (fun p => p.1 = el)).map (·.2)

/-- Mark the given open rings aromatic, in digit order; a ring already
known non-aromatic is an error (`aromatic bond only valid in aromatic
rings`). -/
def markOpenRingsAromatic (col : Nat) :
    ParsedSMILES → List (Nat × Nat) → Except AdvError ParsedSMILES
  | ps, [] => .ok ps
  | ps, (_, rid) :: rest =>
    match ps.findRing rid with
    | none => markOpenRingsAromatic col ps rest
    | some r =>
      if r.isAromatic = some false then
        .error { kind := ErrKind.aromaticBondNonAromaticRing, col := col }
      else
        markOpenRingsAromatic col
          (ps.updateRing rid (fun r => { r with isAromatic := some true })) rest

/-- Handler for an explicit aromatic bond symbol (source lines 188-194):
error when no ring is currently open, error when an open ring is already
explicitly non-aromatic, otherwise set every open ring aromatic. -/
def handleAromaticBond (ps : ParsedSMILES) (col : Nat) :
    Except AdvError ParsedSMILES :=
  if ps.openRings.isEmpty then
    .error { kind := ErrKind.aromaticBondOutsideRing, col := col }
  else markOpenRingsAromatic col ps ps.openRings

/-- After an atom completes, every currently open ring gets the atom
appended to its provisional member list; a ring whose aromaticity is
still unknown becomes non-aromatic. -/
def appendToOpenRings (ps : ParsedSMILES) (gid : Nat) : ParsedSMILES :=
  ps.openRings.foldl
    (fun ps pr =>
      ps.updateRing pr.2 (fun r =>
        let r := if r.isAromatic = none then { r with isAromatic := some false } else r
        { r with members := r.members ++ [gid] }))
    ps

/-- Store a bond from one group to another (`two.addBond(bond, one)`). -/
def linkGroups (ps : ParsedSMILES) (fromId : Nat) (bond : Char) (toId : Nat) :
    ParsedSMILES :=
  ps.updateGroup fromId (fun g => g.addBond bond toId)

/-- Ring-digit bookkeeping for one digit attached to group `gid`: open a
new ring keyed by the digit (aromatic when the atom is lowercase
shorthand), or close the open ring with this digit, recording `gid` as
its end. -/
def processRingDigit (ps : ParsedSMILES) (gid digit : Nat) : ParsedSMILES :=
  match ps.openRings.find? (fun p => p.1 = digit) with
  | none =>
    let rid := ps.rings.length
    let isLower := ((ps.findGroup gid).map (·.isLowercase)).getD false
    let ring : Ring :=
      { id := rid, digit := digit, start := gid, ringEnd := none,
        isAromatic := if isLower then some true else none, members := [gid] }
    let ps := { ps with rings := ps.rings ++ [ring],
                        openRings := insertOpenRing ps.openRings digit rid }
    let upd := modifyIdx ps.molecules (ps.molecules.length - 1)
      (fun m => { m with rings := m.rings ++ [rid] })
    { ps with molecules := upd }
  | some pr =>
    let ps := ps.updateRing pr.2 (fun r => { r with ringEnd := some gid })
    { ps with openRings := ps.openRings.filter (fun p => !(p.1 = digit)) }

/-- The per-call mutable slots of `SMILES#_parse` that survive across
loop iterations: the pending explicit bond (symbol and position) and the
one-shot suppress-auto-bond flag. -/
structure LoopSlots where
  currentBond : Option (Char × Nat)
  dontBondNext : Bool
deriving DecidableEq, Repr

/-- Bonding region of the parser loop (source lines 352-386): after an
atom completes, either consume the suppress flag (an accompanying
explicit bond is a contradiction), or link the two most recent chain
atoms — or the branch's first atom to the branch parent — with the
pending bond or an implicit single bond. -/
def bondingRegion (ps : ParsedSMILES) (chain : List Nat)
    (parent : Option Nat) (slots : LoopSlots) (indexOffset : Nat) :
    Except AdvError (ParsedSMILES × LoopSlots) :=
  if slots.dontBondNext then
    match slots.currentBond with
    | some (_, bp) =>
      .error { kind := ErrKind.bondBetweenSeparatedStructures,
               col := indexOffset + bp }
    | none => .ok (ps, { currentBond := none, dontBondNext := false })
  else
    match slots.currentBond with
    | some (b, bp) =>
      match chain.reverse with
      | one :: two :: _ => .ok (linkGroups ps two b one, { slots with currentBond := none })
      | [one] =>
        match parent with
        | some p => .ok (linkGroups ps p b one, { slots with currentBond := none })
        | none => .error { kind := ErrKind.unexpectedBond, col := indexOffset + bp }
      | [] => .error { kind := ErrKind.unexpectedBond, col := indexOffset + bp }
    | none =>
      match chain.reverse with
      | one :: two :: _ => .ok (linkGroups ps two '-' one, slots)
      | [one] =>
        match parent with
        | some p => .ok (linkGroups ps p '-' one, slots)
        | none => .ok (ps, slots)
      | [] => .ok (ps, slots)

/-- The recursive parser loop (`SMILES#_parse`).  One call consumes the
remainder `rem` of the chain substring starting at `pos`; `chain` is the
destination atom-id list, `parent` the branch parent, `indexOffset` the
absolute offset of this substring in the original input.  Error columns
are absolute.  Returns the updated parse result, the fresh-id counter and
the final chain. -/
def parseLoop (opts : IParseOptions) :
    Nat → ParsedSMILES → Nat → List Char → Nat → List Nat → Option Nat →
      Nat → Nat → LoopSlots → Except AdvError (ParsedSMILES × Nat × List Nat)
  | 0, _, _, _, _, _, _, _, _, _ =>
    .error { kind := ErrKind.fuelExhausted, col := 0 }
  | _ + 1, ps, nextId, [], _, chain, _, _, _, _ => .ok (ps, nextId, chain)
  | fuel + 1, ps, nextId, c :: rem1, pos, chain, parent, chainDepth,
      indexOffset, slots =>
    if opts.enableSeperatedStructures && c = '.' && chainDepth = 0 then
      if slots.dontBondNext then
        .error { kind := ErrKind.unexpectedSeparator, col := indexOffset + pos }
      else
        parseLoop opts fuel
          { ps with molecules := ps.molecules ++ [Molecule.empty] } nextId rem1
          (pos + 1) chain parent chainDepth indexOffset
          { slots with dontBondNext := true }
    else if c = '>' && chainDepth = 0 && !chain.isEmpty &&
        opts.enableSeperatedStructures && opts.enableReaction &&
        (opts.enableMultipleReactions || ps.reactionIndexes.length < 2) then
      let ptr : Int := (ps.molecules.length : Int) - 1
      let lastNonEmpty :=
        (ps.molecules.getLast?.map (fun m => !m.groups.isEmpty)).getD false
      let (ps, ptr) :=
        if lastNonEmpty then
          ({ ps with molecules := ps.molecules ++ [Molecule.empty] }, ptr)
        else (ps, ptr - 1)
      parseLoop opts fuel
        { ps with reactionIndexes := ps.reactionIndexes ++ [ptr] } nextId rem1
        (pos + 1) chain parent chainDepth indexOffset
        { slots with dontBondNext := true }
    else
      let bondTaken := isBondChar c && (if c = ':' then opts.enableAromaticity else true)
      let afterBond : Except AdvError (ParsedSMILES × List Char × Nat × LoopSlots) :=
        if bondTaken then
          if rem1.isEmpty then
            .error { kind := ErrKind.bondEndOfInput, col := indexOffset + pos }
          else if c = ':' then
            match handleAromaticBond ps (indexOffset + pos) with
            | .error e => .error e
            | .ok ps =>
              .ok (ps, rem1, pos + 1, { slots with currentBond := some (c, pos) })
          else
            .ok (ps, rem1, pos + 1, { slots with currentBond := some (c, pos) })
        else .ok (ps, c :: rem1, pos, slots)
      match afterBond with
      | .error e => .error e
      | .ok (ps, rem2, pos2, slots) =>
        match rem2 with
        | [] =>
          .error { kind := ErrKind.expectedAtom, col := indexOffset + pos2 }
        | c2 :: _ =>
          if c2 = '{' && !chain.isEmpty && opts.enableChargeClauses then
            let (ext, openCount) := extractBetweenMatching rem2 '{' '}'
            if !(openCount = 0) then
              .error { kind := ErrKind.unmatchedBrace, col := indexOffset + pos2 }
            else
              match chain.getLast? with
              | none =>
                .error { kind := ErrKind.unexpectedChargeClause, col := indexOffset + pos2 }
              | some gid =>
                match ps.findGroup gid with
                | none =>
                  .error { kind := ErrKind.unexpectedChargeClause, col := indexOffset + pos2 }
                | some g =>
                  let len := ext.length + 2
                  if (!(g.charge = 0) && !opts.cumulativeCharge) || g.isRadical then
                    .error { kind := ErrKind.unexpectedChargeClause, col := indexOffset + pos2 }
                  else
                    match parseChargeString ext with
                    | none =>
                      .error { kind := ErrKind.invalidChargeString, col := indexOffset + pos2 + 1 }
                    | some q =>
                      parseLoop opts fuel
                        (ps.updateGroup gid (fun g =>
                          { g with charge := g.charge + q,
                                   smilesStringLength := g.smilesStringLength + len }))
                        nextId (rem2.drop len) (pos2 + len) chain parent
                        chainDepth indexOffset slots
          else if c2 = '[' && opts.enableInorganicAtoms then
            let (ext, openCount) := extractBetweenMatching rem2 '[' ']'
            if !(openCount = 0) then
              .error { kind := ErrKind.unmatchedBracket, col := indexOffset + pos2 }
            else
              let info := parseInorganicString ext opts.enableRadicals
              match info.error with
              | some k => .error { kind := k, col := indexOffset + pos2 + 1 }
              | none =>
                if info.elements.isEmpty then
                  .error { kind := ErrKind.expectedElement, col := indexOffset + pos2 + 1 }
                else
                  let g0 := (Group.mkNew nextId chainDepth).setSMILESposInfo
                    (indexOffset + pos2) (ext.length + 2)
                  let g1 := info.elements.foldl (fun g p => g.addElement p.1 p.2) g0
                  let am := match info.atomicMass with
                    | some mv => some mv
                    | none =>
                      if opts.showImplcitAtomicMass then
                        match g1.firstElement with
                        | some el => massLookup el
                        | none => none
                      else none
                  let g2 := { g1 with charge := info.charge,
                                      isRadical := info.isRadical, atomicMass := am }
                  let ps := ps.pushGroupToLastMolecule g2
                  let chain := chain ++ [g2.id]
                  let pos3 := pos2 + ext.length + 2
                  match bondingRegion ps chain parent slots indexOffset with
                  | .error e => .error e
                  | .ok (ps, slots) =>
                    parseLoop opts fuel (appendToOpenRings ps g2.id) (nextId + 1)
                      (rem2.drop (ext.length + 2)) pos3 chain parent chainDepth
                      indexOffset slots
          else if c2 = '(' && opts.enableChains then
            let (ext, openCount) := extractBetweenMatching rem2 '(' ')'
            if !(openCount = 0) then
              .error { kind := ErrKind.unmatchedParen, col := indexOffset + pos2 }
            else if ext.isEmpty then
              .error { kind := ErrKind.emptyChain, col := indexOffset + pos2 }
            else
              match chain.getLast? with
              | none =>
                .error { kind := ErrKind.chainWithoutParent, col := indexOffset + pos2 }
              | some parentId =>
                match parseLoop opts fuel ps nextId ext 0 [] (some parentId)
                    (chainDepth + 1) (indexOffset + pos2 + 1)
                    { currentBond := none, dontBondNext := false } with
                | .error e => .error e
                | .ok (ps, nextId, _) =>
                  parseLoop opts fuel ps nextId (rem2.drop (ext.length + 2))
                    (pos2 + ext.length + 2) chain parent chainDepth indexOffset
                    slots
          else if (isDigitChar c2 || c2 = '%') && opts.enableRings then
            match chain.getLast? with
            | none =>
              .error { kind := ErrKind.unexpectedRingDigit, col := indexOffset + pos2 }
            | some gid =>
              let (digits, endIndex) := parseDigitString rem2
              if digits.isEmpty || digits.any (fun d => d.isNone) then
                .error { kind := ErrKind.invalidDigitString, col := indexOffset + pos2 }
              else if !(extractDuplicates digits).isEmpty then
                .error { kind := ErrKind.duplicateRingDigits, col := indexOffset + pos2 }
              else
                let digitsN := digits.filterMap id
                let ps := ps.updateGroup gid (fun g =>
                  { g with ringDigits := g.ringDigits ++ digitsN })
                let ps := digitsN.foldl (fun ps d => processRingDigit ps gid d) ps
                parseLoop opts fuel ps nextId (rem2.drop endIndex)
                  (pos2 + endIndex) chain parent chainDepth indexOffset slots
          else
            match extractElement rem2 with
            | none =>
              .error { kind := ErrKind.expectedAtom, col := indexOffset + pos2 }
            | some el =>
              if (organicSubsetLookup el).isNone && !lowercaseRingAtoms.contains el then
                .error { kind := ErrKind.notOrganicElement, col := indexOffset + pos2 }
              else
                let isLower := lowercaseRingAtoms.contains el
                let elName := if isLower then capitalizeSymbol el else el
                let g0 := (Group.mkNew nextId chainDepth).setSMILESposInfo
                  (indexOffset + pos2) el.data.length
                let g1 := ({ g0 with isLowercase := isLower }).addElement elName 1
                let g2 := if opts.showImplcitAtomicMass then
                    { g1 with atomicMass := massLookup elName }
                  else g1
                let ps := ps.pushGroupToLastMolecule g2
                let chain := chain ++ [g2.id]
                match bondingRegion ps chain parent slots indexOffset with
                | .error e => .error e
                | .ok (ps, slots) =>
                  parseLoop opts fuel (appendToOpenRings ps g2.id) (nextId + 1)
                    (rem2.drop el.data.length) (pos2 + el.data.length) chain
                    parent chainDepth indexOffset slots

/-- Check that the members of one ring all belong to the owning
molecule. -/
def ringMembersInMolecule (mol : Molecule) (col : Nat) :
    List Nat → Option AdvError
  | [] => none
  | n :: rest =>
    if (mol.findGroup n).isNone then
      some { kind := ErrKind.ringBridgesMolecules, col := col }
    else ringMembersInMolecule mol col rest

/-- Bridging check for the rings of one molecule. -/
def moleculeRingBridgeCheck (ps : ParsedSMILES) (mol : Molecule) :
    List Nat → Option AdvError
  | [] => none
  | rid :: rest =>
    match ps.findRing rid with
    | none => moleculeRingBridgeCheck ps mol rest
    | some ring =>
      let col := match ring.members.head? with
        | some m0 => ((mol.findGroup m0).map (·.smilesStringPosition)).getD 0
        | none => 0
      match ringMembersInMolecule mol col ring.members with
      | some e => some e
      | none => moleculeRingBridgeCheck ps mol rest

/-- Validation (b): no ring may reference an atom outside its owning
molecule. -/
def ringBridgeCheck (ps : ParsedSMILES) : List Molecule → Option AdvError
  | [] => none
  | mol :: rest =>
    match moleculeRingBridgeCheck ps mol mol.rings with
    | some e => some e
    | none => ringBridgeCheck ps rest

/-- Validation (c): every ring must be closed; seed an explicit bond from
each ring's start atom to its end atom, aromatic-typed when the ring was
marked aromatic and single-typed otherwise. -/
def seedRingBonds : ParsedSMILES → List Ring → Except AdvError ParsedSMILES
  | ps, [] => .ok ps
  | ps, ring :: rest =>
    match ring.ringEnd with
    | none =>
      .error { kind := ErrKind.unclosedRing,
               col := ((ps.findGroup ring.start).map (·.smilesStringPosition)).getD 0 }
    | some e =>
      seedRingBonds
        (linkGroups ps ring.start (if ring.isAromatic = some true then ':' else '-') e)
        rest

/-- Check letter-case consistency of resolved ring members against the
case of the first member. -/
def ringCaseCheck (ps : ParsedSMILES) (lower : Bool) :
    List Nat → Option AdvError
  | [] => none
  | mid :: rest =>
    match ps.findGroup mid with
    | none => ringCaseCheck ps lower rest
    | some g =>
      if lower then
        if !g.isLowercase then
          some { kind := ErrKind.expectedLowercaseRingAtom,
                 col := g.smilesStringPosition }
        else ringCaseCheck ps lower rest
      else
        if g.isLowercase then
          some { kind := ErrKind.unexpectedLowercaseRingAtom,
                 col := g.smilesStringPosition }
        else ringCaseCheck ps lower rest

/-- Replace the first stored bond toward `destId` (found by index in the
group's own list) with an aromatic bond. -/
def coerceOwnBond (g : Group) (destId : Nat) : Group :=
  match g.bonds.findIdx? (fun b => b.dest = destId) with
  | some i => { g with bonds := g.bonds.set i { bond := ':', dest := destId } }
  | none => g

/-- Coerce every consecutive member-to-member bond of a lowercase
aromatic ring to the aromatic type, looking first in the earlier
member's own bonds and then in the later member's. -/
def coerceRingBonds (ps : ParsedSMILES) :
    List (Nat × Nat) → Except AdvError ParsedSMILES
  | [] => .ok ps
  | (a, b) :: rest =>
    match ps.findGroup a with
    | none => .error { kind := ErrKind.aromaticRingBondMissing, col := 0 }
    | some ga =>
      if (ga.bonds.findIdx? (fun bd => bd.dest = b)).isSome then
        coerceRingBonds (ps.updateGroup a (fun g => coerceOwnBond g b)) rest
      else
        match ps.findGroup b with
        | none => .error { kind := ErrKind.aromaticRingBondMissing, col := 0 }
        | some gb =>
          if (gb.bonds.findIdx? (fun bd => bd.dest = a)).isSome then
            coerceRingBonds (ps.updateGroup b (fun g => coerceOwnBond g a)) rest
          else .error { kind := ErrKind.aromaticRingBondMissing, col := 0 }

/-- Check that every consecutive member-to-member bond of an explicit
aromatic ring already has the aromatic type. -/
def checkRingBondsAromatic (ps : ParsedSMILES) (mol : Molecule) :
    List (Nat × Nat) → Option AdvError
  | [] => none
  | (a, b) :: rest =>
    match (mol.getAllBonds a).find? (fun bd => bd.dest = b) with
    | none => some { kind := ErrKind.aromaticRingBondMissing, col := 0 }
    | some bd =>
      if !(bd.bond = ':') then
        some { kind := ErrKind.aromaticRingBondNotAromatic,
               col := ((ps.findGroup b).map (·.smilesStringPosition)).getD 0 }
      else checkRingBondsAromatic ps mol rest

/-- Consecutive pairs of a list. -/
def consecutivePairs : List Nat → List (Nat × Nat)
  | a :: b :: rest => (a, b) :: consecutivePairs (b :: rest)
  | _ => []

/-- Tail of the per-ring resolution, after the member list has been
replaced by the traced path `ms` (so `ps` here is the already-updated
state): validate uniform letter case from the first member, and coerce
or check aromatic bonds when the ring was aromatic. -/
def resolveRingTail (ps : ParsedSMILES) (mi : Nat) (ring : Ring)
    (ms : List Nat) : Except AdvError ParsedSMILES :=
  match ms.head? with
  | none => .error { kind := ErrKind.ringResolutionFailed, col := 0 }
  | some m0 =>
    match ps.findGroup m0 with
    | none => .error { kind := ErrKind.ringResolutionFailed, col := 0 }
    | some g0 =>
      match ringCaseCheck ps g0.isLowercase ms.tail with
      | some e => .error e
      | none =>
        if ring.isAromatic = some true then
          if g0.isLowercase then
            coerceRingBonds ps (consecutivePairs ms)
          else
            match ps.molecules[mi]? with
            | none => .ok ps
            | some mol2 =>
              match checkRingBondsAromatic ps mol2 (consecutivePairs ms) with
              | some e => .error e
              | none => .ok ps
        else .ok ps

/-- Resolve one closed ring (source lines 60-97): enumerate the paths
between its start and end atoms restricted to the provisional members,
replace the member list by the trace of the first longest path, validate
uniform letter case, and coerce or check aromatic bonds when the ring is
aromatic. -/
def resolveRing (ps : ParsedSMILES) (mi rid : Nat) (fuel : Nat) :
    Except AdvError ParsedSMILES :=
  match ps.molecules[mi]? with
  | none => .ok ps
  | some mol =>
    match ps.findRing rid with
    | none => .ok ps
    | some ring =>
      match ring.ringEnd with
      | none => .error { kind := ErrKind.ringResolutionFailed, col := 0 }
      | some endId =>
        match mol.pathfind ring.start endId (some ring.members) fuel with
        | .error e => .error e
        | .ok paths =>
          match paths.find? (fun p =>
              p.length = (paths.map (fun q => q.length)).foldl max 0) with
          | none => .error { kind := ErrKind.ringResolutionFailed, col := 0 }
          | some p =>
            match mol.traceBondPath ring.start p with
            | none => .error { kind := ErrKind.ringResolutionFailed, col := 0 }
            | some ms =>
              resolveRingTail
                (ps.updateRing rid (fun r => { r with members := ms }))
                mi ring ms

/-- Resolve all rings of the molecule at index `mi`, in ring order. -/
def resolveMoleculeRings (mi : Nat) (fuel : Nat) :
    ParsedSMILES → List Nat → Except AdvError ParsedSMILES
  | ps, [] => .ok ps
  | ps, rid :: rest =>
    match resolveRing ps mi rid fuel with
    | .error e => .error e
    | .ok ps => resolveMoleculeRings mi fuel ps rest

/-- Molecule-indexed iteration of the resolution pass; the counter is
the number of molecules left to visit (resolution never adds or removes
molecules, so the molecule count taken at entry is stable). -/
def resolveAllRingsGo (fuel : Nat) :
    Nat → ParsedSMILES → Nat → Except AdvError ParsedSMILES
  | 0, ps, _ => .ok ps
  | n + 1, ps, mi =>
    match ps.molecules[mi]? with
    | none => .ok ps
    | some mol =>
      match resolveMoleculeRings mi fuel ps mol.rings with
      | .error e => .error e
      | .ok ps => resolveAllRingsGo fuel n ps (mi + 1)

/-- Validation (d): the ring-resolution pass over every molecule. -/
def resolveAllRings (fuel : Nat) (ps : ParsedSMILES) :
    Except AdvError ParsedSMILES :=
  resolveAllRingsGo fuel ps.molecules.length ps 0

/-- Validation (e): every lowercase-shorthand atom must belong to some
resolved ring. -/
def lowercaseOutsideRingCheck (ps : ParsedSMILES) : Option AdvError :=
  match ps.allGroups.find? (fun p =>
      p.2.isLowercase &&
        !(ps.rings.any (fun r => r.members.contains p.1))) with
  | some p =>
    some { kind := ErrKind.lowercaseOutsideRing,
           col := p.2.smilesStringPosition }
  | none => none

/-- Validation (f): add implicit hydrogens to every molecule, threading
the fresh-id counter. -/
def addImplicitAll (nid : Nat) :
    List Molecule → List Molecule × Nat
  | [] => ([], nid)
  | m :: rest =>
    let (m2, nid2) := m.addImplicitHydrogens nid
    let (ms, nid3) := addImplicitAll nid2 rest
    (m2 :: ms, nid3)

/-- Validation (g): run the bond-count check on every molecule; the
first violation record is surfaced as its error. -/
def checkBondCountAll : List Molecule → Option AdvError
  | [] => none
  | m :: rest =>
    match m.checkBondCounts with
    | some v => some v.error
    | none => checkBondCountAll rest

/-- `SMILES#parse` with the effective options: run the recursive descent
and then the whole-string validation pipeline in source order. -/
def parseWith (opts : IParseOptions) (smiles : List Char) (fuel : Nat) :
    Except AdvError ParsedSMILES :=
  match parseLoop opts fuel (ParsedSMILES.mk0 smiles opts) 0 smiles 0 [] none 0 0
      { currentBond := none, dontBondNext := false } with
  | .error e => .error e
  | .ok (ps, nid, _) =>
    if ps.reactionIndexes.length % 2 = 1 then
      .error { kind := ErrKind.incompleteReaction,
               col := smiles.length - 1 }
    else
      match ringBridgeCheck ps ps.molecules with
      | some e => .error e
      | none =>
        match seedRingBonds ps ps.rings with
        | .error e => .error e
        | .ok ps =>
          match resolveAllRings fuel ps with
          | .error e => .error e
          | .ok ps =>
            match lowercaseOutsideRingCheck ps with
            | some e => .error e
            | none =>
              let ps :=
                if opts.addImplicitHydrogens then
                  { ps with molecules := (addImplicitAll nid ps.molecules).1 }
                else ps
              if opts.checkBondCount then
                match checkBondCountAll ps.molecules with
                | some e => .error e
                | none => .ok ps
              else .ok ps

/-- The stateful `SMILES` instance: its stored parse configuration. -/
structure SMILESInstance where
  parseOptions : IParseOptions
deriving DecidableEq, Repr

/-- `SMILES#parse`: copy the stored options, write the per-call override
entries into the copy, and run the parse with the merged copy.  The
returned instance is the post-call instance state; the method never
assigns to the stored configuration. -/
def SMILESInstance.parse (inst : SMILESInstance) (smiles : List Char)
    (ov : List (String × Bool)) (fuel : Nat) :
    Except AdvError ParsedSMILES × SMILESInstance :=
  (parseWith (mergeParseOptions inst.parseOptions ov) smiles fuel, inst)

/-- Decidable equality of `Except` results, for evaluating concrete
parses inside proofs. -/
instance {ε α : Type} [DecidableEq ε] [DecidableEq α] :
    DecidableEq (Except ε α) :=
  fun a b =>
    match a, b with
    | .ok x, .ok y =>
      if h : x = y then isTrue (by rw [h]) else isFalse (by simp [h])
    | .error x, .error y =>
      if h : x = y then isTrue (by rw [h]) else isFalse (by simp [h])
    | .ok _, .error _ => isFalse (by simp)
    | .error _, .ok _ => isFalse (by simp)

/-- A full-featured configuration used for the concrete test parses
(hydrogen insertion and bond-count checking stay off so that the parse
result exposes the raw graph). -/
def baseOptions : IParseOptions :=
  { enableSeperatedStructures := true, enableReaction := true,
    enableMultipleReactions := false, enableAromaticity := true,
    enableChargeClauses := true, cumulativeCharge := false,
    enableInorganicAtoms := true, enableChains := true, enableRings := true,
    enableRadicals := true, showImplcitAtomicMass := false,
    addImplicitHydrogens := false, checkBondCount := false }

/-- A two-carbon molecule joined by a single explicit aromatic bond: the
bond-count weight of atom 0 is the fractional 3/2, exercising the
non-integer branch of the hydrogen-insertion loop. -/
def aromaticPairMolecule : Molecule :=
  let g0 : Group :=
    { Group.mkNew 0 0 with elements := [("C", 1)], bonds := [{ bond := ':', dest := 1 }] }
  let g1 : Group := { Group.mkNew 1 0 with elements := [("C", 1)] }
  { groups := [(0, g0), (1, g1)], rings := [] }

/-- The carbon group 0 of `aromaticPairMolecule` (with a fallback that
the lookup never takes). -/
def aromaticPairG0 : Group :=
  (aromaticPairMolecule.findGroup 0).getD (Group.mkNew 0 0)

/-- Allowed valences of a group's (single) element, empty when the group
is not a bare organic-subset atom. -/
def Group.allowedValences (g : Group) : List Nat :=
  match g.firstElement with
  | some el => (organicSubsetLookup el).getD []
  | none => []

/-- Claim-side predicate: the atom is neutral, non-radical, in the
organic subset, and its total bond-count weight is not a member of the
element's allowed valence set. -/
def isBondCountViolator (m : Molecule) (g : Group) : Bool :=
  g.charge = 0 && !g.isRadical && g.inOrganicSubset &&
    !(g.allowedValences.any (fun n => 2 * n = m.getBondCount g.id))

/-- Hill-system rank of an entry: carbon, then hydrogen, then the rest. -/
def hillRank (a : IAtomCount) : Nat :=
  if a.atom = "C" then 0 else if a.atom = "H" then 1 else 2

/-- Claim-side ordering relation for the Hill-ordered output: lower rank
first; equal atoms ordered by charge; distinct non-C/H atoms ordered
alphabetically. -/
def hillRel (a b : IAtomCount) : Prop :=
  hillRank a < hillRank b ∨
    (hillRank a = hillRank b ∧ a.atom = b.atom ∧ chargeLEb a b = true) ∨
    (hillRank a = 2 ∧ hillRank b = 2 ∧ ¬a.atom = b.atom ∧
      strLEb a.atom b.atom = true)

/-- A ring-closure parse state with one open undecided ring, used as a
witness input for the aromatic-bond handler. -/
def openRingState : ParsedSMILES :=
  let g0 : Group := { Group.mkNew 0 0 with elements := [("C", 1)] }
  { smiles := ['C', '1', ':'], parseOptions := baseOptions,
    molecules := [{ groups := [(0, g0)], rings := [0] }],
    openRings := [(1, 0)],
    rings := [{ id := 0, digit := 1, start := 0, ringEnd := none,
                isAromatic := none, members := [0] }],
    reactionIndexes := [] }

/-- The molecule of `twoRingState`: two singly-bonded carbons carrying a
closed two-membered ring. -/
def twoRingMolecule : Molecule :=
  let g0 : Group :=
    { Group.mkNew 0 0 with elements := [("C", 1)], bonds := [{ bond := '-', dest := 1 }] }
  let g1 : Group := { Group.mkNew 1 0 with elements := [("C", 1)] }
  { groups := [(0, g0), (1, g1)], rings := [0] }

/-- A two-atom parse state with one closed two-membered ring, used as a
witness input for the ring-resolution and molecule-removal theorems. -/
def twoRingState : ParsedSMILES :=
  { smiles := ['C', '1', 'C', '1'], parseOptions := baseOptions,
    molecules := [twoRingMolecule],
    openRings := [],
    rings := [{ id := 0, digit := 1, start := 0, ringEnd := some 1,
                isAromatic := some false, members := [0, 1] }],
    reactionIndexes := [0] }

/-- The single (closed) ring record of `twoRingState`. -/
def twoRing : Ring :=
  { id := 0, digit := 1, start := 0, ringEnd := some 1,
    isAromatic := some false, members := [0, 1] }

/-- A parse state at an aromatic bond symbol where the single open ring
has already been marked non-aromatic (as happens as soon as any
non-shorthand atom completes while the ring is open). -/
def ringFalseState : ParsedSMILES :=
  let g0 : Group :=
    { Group.mkNew 0 0 with elements := [("C", 1)], bonds := [{ bond := '-', dest := 1 }] }
  let g1 : Group := { Group.mkNew 1 0 with elements := [("C", 1)] }
  { smiles := ['C', '1', 'C', ':', 'C', '1'], parseOptions := baseOptions,
    molecules := [{ groups := [(0, g0), (1, g1)], rings := [0] }],
    openRings := [(1, 0)],
    rings := [{ id := 0, digit := 1, start := 0, ringEnd := none,
                isAromatic := some false, members := [0, 1] }],
    reactionIndexes := [] }

/-- A small mixed molecule (acetate-like fragment with a charged oxygen
and an explicit hydrogen) used as a witness input for the Hill-ordering
theorem. -/
def formulaMolecule : Molecule :=
  let gC : Group := { Group.mkNew 0 0 with elements := [("C", 1)] }
  let gO1 : Group := { Group.mkNew 1 0 with elements := [("O", 1)] }
  let gO2 : Group := { Group.mkNew 2 0 with elements := [("O", 1)], charge := -1 }
  let gN : Group := { Group.mkNew 3 0 with elements := [("N", 1)] }
  let gH : Group := { Group.mkNew 4 0 with elements := [("H", 1)] }
  { groups := [(0, gC), (1, gO1), (2, gO2), (3, gN), (4, gH)], rings := [] }

/-- Every bond symbol stored anywhere in the parse state. -/
def allBondChars (ps : ParsedSMILES) : List Char :=
  ps.allGroups.flatMap (fun p => p.2.bonds.map (fun b => b.bond))

/-- A structural summary for round-trip comparison: the per-molecule
atom tallies (in first-occurrence order, charges kept) and the tally of
each bond symbol; source-position data is deliberately not part of it. -/
def roundTripSummary (ps : ParsedSMILES) : List (List IAtomCount) × List Nat :=
  (ps.molecules.map (fun m => m.countAtoms
    { splitGroups := none, hillSystemOrder := some false, ignoreCharge := none }),
   [(allBondChars ps).count '-', (allBondChars ps).count '=',
    (allBondChars ps).count '#', (allBondChars ps).count ':'])

/-- Parse, re-serialize, re-parse, and compare the two summaries. -/
def roundTripHolds (s : List Char) : Except AdvError Bool :=
  (parseWith baseOptions s 100).bind (fun ps =>
    (ps.generateSMILES false 100).bind (fun out =>
      (parseWith baseOptions out 100).map (fun ps2 =>
        roundTripSummary ps2 = roundTripSummary ps)))

/-- C7: parsing `CC>>CCO` with reactions enabled succeeds over two
molecules and records exactly two reaction-boundary markers, both equal
to 0, so the reagent zone strictly between the two markers (molecule
positions `p` with `marker₀ < p ≤ marker₁`) contains no molecule. -/
theorem claim7_reaction_markers :
    (parseWith baseOptions ['C', 'C', '>', '>', 'C', 'C', 'O'] 100).map
        (fun ps =>
          (ps.reactionIndexes, ps.molecules.length,
            (List.range ps.molecules.length).filter (fun p =>
              ps.reactionIndexes.head?.getD 0 < (p : Int) &&
                (p : Int) ≤ (ps.reactionIndexes[1]?).getD 0))) =
      .ok ([0, 0], 2, []) := by
  decide

/-- C2 counterexample: parsing `C12CC2C1` succeeds and resolves ring 1
to the member list `[0, 1, 2, 0, 3]`, which repeats atom 0 — so the
final member list is not a simple path, and its member count 5 exceeds
the length of every simple path through the four provisional member
atoms. -/
theorem claim2_counterexample :
    (parseWith baseOptions ['C', '1', '2', 'C', 'C', '2', 'C', '1'] 100).map
        (fun ps => ps.rings.head?.map (fun r => r.members)) =
      .ok (some [0, 1, 2, 0, 3]) ∧
    ¬ ([0, 1, 2, 0, 3] : List Nat).Nodup ∧
    ([0, 1, 2, 0, 3] : List Nat).length = 5 ∧
    ([0, 1, 2, 0, 3] : List Nat).dedup.length = 4 := by
  decide

/-- C3 counterexample: an explicit aromatic bond raises a Bond error even
though a ring is currently open, whenever that open ring has already been
marked non-aromatic; `ringFalseState` is exactly the parser state
reached at the `:` of `C1C:C1`, and the full parse of that input fails
with the same error instead of marking the open ring aromatic. -/
theorem claim3_counterexample :
    ¬ ringFalseState.openRings.isEmpty = true ∧
    handleAromaticBond ringFalseState 3 =
      .error { kind := ErrKind.aromaticBondNonAromaticRing, col := 3 } ∧
    parseWith baseOptions ['C', '1', 'C', ':', 'C', '1'] 100 =
      .error { kind := ErrKind.aromaticBondNonAromaticRing, col := 3 } := by
  decide

/-- C5 counterexample: for the neutral organic carbon 0 of
`aromaticPairMolecule` the total bond-count weight is 3/2 (3 half-units)
and the smallest allowed valence at least that weight is 4, yet
`addImplicitHydrogens` appends three hydrogens (bonds to the fresh ids
2, 3 and 4) — not "exactly valence minus weight": doubling the claimed
count, 2 times 3 would have to equal 2 times 4 minus 3, i.e. the
non-integral 5/2 hydrogens. -/
theorem claim5_counterexample :
    aromaticPairMolecule.getBondCount 0 = 3 ∧
    ((organicSubsetLookup "C").getD []).find?
        (fun n => aromaticPairMolecule.getBondCount 0 ≤ 2 * n) = some 4 ∧
    ((aromaticPairMolecule.addImplicitHydrogens 2).1.findGroup 0).map
        (fun g => g.bonds) =
      some [{ bond := ':', dest := 1 }, { bond := '-', dest := 2 },
            { bond := '-', dest := 3 }, { bond := '-', dest := 4 }] ∧
    ¬ (2 * 3 = 2 * 4 - aromaticPairMolecule.getBondCount 0) := by
  decide

/-- C8: a per-call option override never mutates the stored parse
configuration — after the call every option key of the instance has the
value it had before, and the parse ran with the merged copy of the
stored options. -/
theorem claim8_options_not_mutated (inst : SMILESInstance)
    (smiles : List Char) (ov : List (String × Bool)) (fuel : Nat) :
    ((inst.parse smiles ov fuel).2.parseOptions.enableSeperatedStructures =
        inst.parseOptions.enableSeperatedStructures) ∧
    ((inst.parse smiles ov fuel).2.parseOptions.enableReaction =
        inst.parseOptions.enableReaction) ∧
    ((inst.parse smiles ov fuel).2.parseOptions.enableMultipleReactions =
        inst.parseOptions.enableMultipleReactions) ∧
    ((inst.parse smiles ov fuel).2.parseOptions.enableAromaticity =
        inst.parseOptions.enableAromaticity) ∧
    ((inst.parse smiles ov fuel).2.parseOptions.enableChargeClauses =
        inst.parseOptions.enableChargeClauses) ∧
    ((inst.parse smiles ov fuel).2.parseOptions.cumulativeCharge =
        inst.parseOptions.cumulativeCharge) ∧
    ((inst.parse smiles ov fuel).2.parseOptions.enableInorganicAtoms =
        inst.parseOptions.enableInorganicAtoms) ∧
    ((inst.parse smiles ov fuel).2.parseOptions.enableChains =
        inst.parseOptions.enableChains) ∧
    ((inst.parse smiles ov fuel).2.parseOptions.enableRings =
        inst.parseOptions.enableRings) ∧
    ((inst.parse smiles ov fuel).2.parseOptions.enableRadicals =
        inst.parseOptions.enableRadicals) ∧
    ((inst.parse smiles ov fuel).2.parseOptions.showImplcitAtomicMass =
        inst.parseOptions.showImplcitAtomicMass) ∧
    ((inst.parse smiles ov fuel).2.parseOptions.addImplicitHydrogens =
        inst.parseOptions.addImplicitHydrogens) ∧
    ((inst.parse smiles ov fuel).2.parseOptions.checkBondCount =
        inst.parseOptions.checkBondCount) ∧
    (inst.parse smiles ov fuel).1 =
      parseWith (mergeParseOptions inst.parseOptions ov) smiles fuel := by
  exact ⟨rfl, rfl, rfl, rfl, rfl, rfl, rfl, rfl, rfl, rfl, rfl, rfl, rfl, rfl⟩

/-- C10: `removeMolecule` of an absent molecule returns `false` and
changes nothing; for a present molecule it returns `true`, erases the
first occurrence, keeps exactly the global rings whose id is not among
the removed molecule's rings, and decrements every reaction-boundary
index at or above the removal position, leaving all other fields
unchanged. -/
theorem claim10_removeMolecule (ps : ParsedSMILES) (mol : Molecule) :
    (mol ∉ ps.molecules → ps.removeMolecule mol = (false, ps)) ∧
    (∀ i, ps.molecules.findIdx? (fun m => m = mol) = some i →
      (ps.removeMolecule mol).1 = true ∧
      (ps.removeMolecule mol).2.molecules = ps.molecules.eraseIdx i ∧
      (∀ r : Ring, r ∈ (ps.removeMolecule mol).2.rings ↔
        (r ∈ ps.rings ∧ ¬ mol.rings.contains r.id = true)) ∧
      (ps.removeMolecule mol).2.reactionIndexes =
        ps.reactionIndexes.map (fun ri => if (i : Int) ≤ ri then ri - 1 else ri) ∧
      (ps.removeMolecule mol).2.smiles = ps.smiles ∧
      (ps.removeMolecule mol).2.parseOptions = ps.parseOptions ∧
      (ps.removeMolecule mol).2.openRings = ps.openRings) := by
  constructor
  · intro habs
    have hnone : ps.molecules.findIdx? (fun m => m = mol) = none := by
      rw [List.findIdx?_eq_none_iff]
      intro x hx
      rw [decide_eq_false_iff_not]
      intro hxe
      exact habs (hxe ▸ hx)
    simp [ParsedSMILES.removeMolecule, hnone]
  · intro i hi
    unfold ParsedSMILES.removeMolecule
    rw [hi]
    refine ⟨rfl, rfl, ?_, rfl, rfl, rfl, rfl⟩
    intro r
    simp [List.mem_filter]

/-- Witness for C10: removing the only molecule of `twoRingState`
succeeds, empties the molecule list, drops its ring and decrements the
reaction-boundary index 0 to -1. -/
theorem claim10_removeMolecule_witness :
    (twoRingState.removeMolecule twoRingMolecule).1 = true ∧
    (twoRingState.removeMolecule twoRingMolecule).2.molecules = [] ∧
    (twoRingState.removeMolecule twoRingMolecule).2.reactionIndexes = [-1] := by
  have h := (claim10_removeMolecule twoRingState twoRingMolecule).2 0 (by decide)
  refine ⟨h.1, ?_, ?_⟩
  · rw [h.2.1]
    decide
  · rw [h.2.2.2.1]
    decide

/-- Counting the reversed copies built from one group's bond list: the
records equal to `(t, d)` are exactly the `(t, gid)` bonds of the group
when its id `k` equals `d`, and there are none otherwise. -/
theorem bondRevMapCount (k gid : Nat) (t : Char) (d : Nat) :
    ∀ bonds : List Bond,
      ((bonds.filter (fun b => b.dest = gid)).map
          (fun b => ({ bond := b.bond, dest := k } : Bond))).count
          ({ bond := t, dest := d } : Bond) =
        if k = d then bonds.count { bond := t, dest := gid } else 0 := by
  intro bonds
  induction bonds with
  | nil => by_cases hkd : k = d <;> simp [hkd]
  | cons b bs ih =>
    rw [List.filter_cons]
    by_cases hbd : b.dest = gid
    · rw [if_pos (by rw [decide_eq_true_eq]; exact hbd)]
      rw [List.map_cons, List.count_cons, List.count_cons, ih]
      by_cases hkd : k = d
      · by_cases hbt : b.bond = t
        · have h1 : (({ bond := b.bond, dest := k } : Bond) ==
              { bond := t, dest := d }) = true := by
            rw [beq_iff_eq]
            rw [hbt, hkd]
          have h2 : (b == ({ bond := t, dest := gid } : Bond)) = true := by
            rw [beq_iff_eq]
            cases b
            simp_all
          rw [h1, h2]
          simp [hkd]
        · have h1 : (({ bond := b.bond, dest := k } : Bond) ==
              { bond := t, dest := d }) = false := by
            rw [beq_eq_false_iff_ne]
            intro hc
            exact hbt (congrArg Bond.bond hc)
          have h2 : (b == ({ bond := t, dest := gid } : Bond)) = false := by
            rw [beq_eq_false_iff_ne]
            intro hc
            exact hbt (congrArg Bond.bond hc)
          rw [h1, h2]
          simp [hkd]
      · have h1 : (({ bond := b.bond, dest := k } : Bond) ==
            { bond := t, dest := d }) = false := by
          rw [beq_eq_false_iff_ne]
          intro hc
          exact hkd (congrArg Bond.dest hc)
        rw [h1]
        simp [if_neg hkd] at ih
        simp [ih, hkd]
    · rw [if_neg (by rw [decide_eq_true_eq]; exact hbd)]
      rw [ih, List.count_cons]
      have h2 : (b == ({ bond := t, dest := gid } : Bond)) = false := by
        rw [beq_eq_false_iff_ne]
        intro hc
        exact hbd (congrArg Bond.dest hc)
      rw [h2]
      simp

/-- The reversed-record half of `getAllBonds`, counted: scanning a
key-distinct group list for bonds pointing at `gid`, the records equal
to `(t, d)` are exactly the `(t, gid)` bonds stored on the group with
id `d` (and none when `d = gid`, which the scan skips). -/
theorem revBondsCount (gid : Nat) (t : Char) (d : Nat) :
    ∀ l : List (Nat × Group), (l.map (·.1)).Nodup →
      ((l.flatMap (fun p =>
          if p.1 = gid then []
          else (p.2.bonds.filter (fun b => b.dest = gid)).map
            (fun b => ({ bond := b.bond, dest := p.1 } : Bond)))).count
            ({ bond := t, dest := d } : Bond)) =
        if d = gid then 0
        else
          match l.find? (fun p => p.1 = d) with
          | some p => p.2.bonds.count { bond := t, dest := gid }
          | none => 0 := by
  intro l
  induction l with
  | nil =>
    intro _
    by_cases hdg : d = gid <;> simp [hdg]
  | cons hd rest ih =>
    intro hnd
    rw [List.map_cons, List.nodup_cons] at hnd
    have ihr := ih hnd.2
    rw [List.flatMap_cons, List.count_append, ihr]
    by_cases hkg : hd.1 = gid
    · rw [if_pos hkg]
      by_cases hdg : d = gid
      · simp [hdg]
      · have hfind : (hd :: rest).find? (fun p => p.1 = d) =
            rest.find? (fun p => p.1 = d) := by
          apply List.find?_cons_of_neg
          rw [decide_eq_true_eq]
          rw [hkg]
          omega
        rw [hfind]
        simp
    · rw [if_neg hkg]
      rw [bondRevMapCount hd.1 gid t d hd.2.bonds]
      by_cases hdg : d = gid
      · have hkd : ¬(hd.1 = d) := by rw [hdg]; exact hkg
        rw [if_neg hkd]
        simp [hdg]
      · by_cases hkd : hd.1 = d
        · have hrestnone : rest.find? (fun p => p.1 = d) = none := by
            rw [List.find?_eq_none]
            intro x hx
            rw [decide_eq_true_eq]
            intro hxd
            apply hnd.1
            rw [hkd]
            rw [← hxd]
            exact List.mem_map.mpr ⟨x, hx, rfl⟩
          have hfind : (hd :: rest).find? (fun p => p.1 = d) = some hd := by
            apply List.find?_cons_of_pos
            rw [decide_eq_true_eq]
            exact hkd
          rw [if_pos hkd, hfind, hrestnone]
          simp [hdg]
        · have hfind : (hd :: rest).find? (fun p => p.1 = d) =
              rest.find? (fun p => p.1 = d) := by
            apply List.find?_cons_of_neg
            rw [decide_eq_true_eq]
            exact hkd
          rw [if_neg hkd, hfind]
          simp

/-- C9: for every group id, `getAllBonds` returns one record per stored
bond of that group plus one record per bond stored on another group that
points at it, with the destination rewritten to that other group's id —
counted per (type, destination), the output holds exactly the group's
own `(t, d)` bonds plus the `(t, gid)` bonds stored on group `d`.  The
records are rebuilt copies, so the stored bond lists are untouched. -/
theorem claim9_getAllBonds (m : Molecule)
    (hnd : (m.groups.map (·.1)).Nodup) (gid : Nat) (t : Char) (d : Nat) :
    (m.getAllBonds gid).count { bond := t, dest := d } =
      (m.ownBonds gid).count { bond := t, dest := d } +
        (if d = gid then 0
         else (m.ownBonds d).count { bond := t, dest := gid }) := by
  unfold Molecule.getAllBonds
  rw [List.count_append]
  congr 1
  rw [revBondsCount gid t d m.groups hnd]
  by_cases hdg : d = gid
  · simp [hdg]
  · simp only [if_neg hdg]
    unfold Molecule.ownBonds Molecule.findGroup
    cases hf : m.groups.find? (fun p => p.1 = d) <;> simp [hf]

/-- Witness for C9 on `aromaticPairMolecule`: all bonds touching atom 1
are the reversed copy of the aromatic bond stored on atom 0. -/
theorem claim9_getAllBonds_witness :
    (aromaticPairMolecule.getAllBonds 1).count { bond := ':', dest := 0 } =
      (aromaticPairMolecule.ownBonds 1).count { bond := ':', dest := 0 } +
        (if (0 : Nat) = 1 then 0
         else (aromaticPairMolecule.ownBonds 0).count { bond := ':', dest := 1 }) :=
  claim9_getAllBonds aromaticPairMolecule (by decide) 1 ':' 0

/-- Every valence list stored in the organic-subset table is
non-empty (hence the `organicSubset[el][0]` guard of `checkBondCounts`
never sees an undefined entry). -/
theorem organicSubsetLookup_head_isSome (el : String) (vs : List Nat)
    (h : organicSubsetLookup el = some vs) : vs.head?.isSome = true := by
  unfold organicSubsetLookup at h
  cases hf : organicSubset.find? (fun p => p.1 = el) with
  | none =>
    rw [hf] at h
    exact Option.noConfusion h
  | some p =>
    rw [hf] at h
    have hvs : vs = p.2 := by
      injection h with h2
      exact h2.symm
    subst hvs
    have hmem : p ∈ organicSubset := List.mem_of_find?_eq_some hf
    simp only [organicSubset, List.mem_cons, List.not_mem_nil, or_false] at hmem
    rcases hmem with h | h | h | h | h | h | h | h | h | h | h <;>
      (rw [h]; decide)

/-- An atom in the organic subset has a first element with a table
entry. -/
theorem inOrganicSubset_elim (g : Group) (h : g.inOrganicSubset = true) :
    ∃ el vs, g.firstElement = some el ∧ organicSubsetLookup el = some vs := by
  unfold Group.inOrganicSubset at h
  rw [Bool.and_eq_true] at h
  obtain ⟨-, h2⟩ := h
  cases hfe : g.firstElement with
  | none =>
    rw [hfe] at h2
    exact Bool.noConfusion h2
  | some el =>
    rw [hfe] at h2
    have h3 : (organicSubsetLookup el).isSome = true := h2
    cases hl : organicSubsetLookup el with
    | none =>
      rw [hl] at h3
      exact Bool.noConfusion h3
    | some vs => exact ⟨el, vs, rfl, hl⟩

/-- The scan of `checkBondCounts` is the first group satisfying the
claim-side violation predicate, mapped to its structured record. -/
theorem checkBondCountsGo_spec (m : Molecule) :
    ∀ l : List (Nat × Group),
      checkBondCountsGo m l =
        (l.find? (fun p => isBondCountViolator m p.2)).map
          (fun p =>
            { group := p.2, element := p.2.firstElement.getD "",
              error := { kind := ErrKind.invalidBondCount,
                         col := p.2.smilesStringPosition } }) := by
  intro l
  induction l with
  | nil => simp [checkBondCountsGo]
  | cons hd rest ih =>
    obtain ⟨k, g⟩ := hd
    rw [List.find?_cons]
    by_cases hguard : (decide (g.charge = 0) && !g.isRadical &&
        g.inOrganicSubset) = true
    · have hguard2 := hguard
      rw [Bool.and_eq_true, Bool.and_eq_true] at hguard2
      obtain ⟨⟨hq, hrad⟩, horg⟩ := hguard2
      obtain ⟨el, vs, hfe, hl⟩ := inOrganicSubset_elim g horg
      have hvshead := organicSubsetLookup_head_isSome el vs hl
      have hvals : g.allowedValences = vs := by
        unfold Group.allowedValences
        rw [hfe]
        show (organicSubsetLookup el).getD [] = vs
        rw [hl]
        rfl
      have hstep : checkBondCountsGo m ((k, g) :: rest) =
          (if (vs.head?.isSome &&
              !(vs.any fun n => decide (2 * n = m.getBondCount g.id))) = true then
            some { group := g, element := el,
                   error := { kind := ErrKind.invalidBondCount,
                              col := g.smilesStringPosition } }
          else checkBondCountsGo m rest) := by
        simp only [checkBondCountsGo, hguard, if_true, hfe, hl]
      by_cases hany : (vs.any fun n => decide (2 * n = m.getBondCount g.id)) = true
      · have hviolF : isBondCountViolator m g = false := by
          unfold isBondCountViolator
          rw [hvals, hany]
          simp
        rw [hstep, hany]
        simp only [Bool.not_true, Bool.and_false, hviolF]
        rw [if_neg (by simp)]
        exact ih
      · have hanyF : (vs.any fun n => decide (2 * n = m.getBondCount g.id)) = false := by
          rw [Bool.not_eq_true] at hany
          exact hany
        have hviolT : isBondCountViolator m g = true := by
          unfold isBondCountViolator
          rw [Bool.and_eq_true]
          refine ⟨hguard, ?_⟩
          rw [hvals, hanyF]
          rfl
        rw [hstep, hanyF, hvshead]
        simp only [Bool.not_false, Bool.and_true, hviolT]
        rw [if_pos trivial]
        simp [hfe]
    · have hguardF : (decide (g.charge = 0) && !g.isRadical &&
          g.inOrganicSubset) = false := by
        rw [Bool.not_eq_true] at hguard
        exact hguard
      have hviolF : isBondCountViolator m g = false := by
        unfold isBondCountViolator
        rw [hguardF]
        simp
      have hstep : checkBondCountsGo m ((k, g) :: rest) =
          checkBondCountsGo m rest := by
        simp only [checkBondCountsGo, hguardF]
        simp
      rw [hstep]
      simp only [hviolF]
      exact ih

/-- C4: `checkBondCounts` never raises: it returns the all-clear value
or the structured record of the first atom that is neutral, non-radical
and in the organic subset whose total bond-count weight is not among the
element's allowed valences; the record names that atom, its element and
its source offset, and an atom that is charged, radical or outside the
organic subset is never the one reported. -/
theorem claim4_checkBondCounts (m : Molecule) :
    m.checkBondCounts =
      (m.groups.find? (fun p => isBondCountViolator m p.2)).map
        (fun p =>
          { group := p.2, element := p.2.firstElement.getD "",
            error := { kind := ErrKind.invalidBondCount,
                       col := p.2.smilesStringPosition } }) ∧
    (∀ v, m.checkBondCounts = some v →
      v.group.charge = 0 ∧ v.group.isRadical = false ∧
      v.group.inOrganicSubset = true ∧
      isBondCountViolator m v.group = true ∧
      v.group.firstElement = some v.element ∧
      v.error.col = v.group.smilesStringPosition ∧
      v.error.kind = ErrKind.invalidBondCount) := by
  have hmain := checkBondCountsGo_spec m m.groups
  constructor
  · exact hmain
  · intro v hv
    unfold Molecule.checkBondCounts at hv
    rw [hmain] at hv
    cases hfind : m.groups.find? (fun p => isBondCountViolator m p.2) with
    | none =>
      rw [hfind] at hv
      exact Option.noConfusion hv
    | some p =>
      rw [hfind] at hv
      have hp := List.find?_some hfind
      injection hv with h2
      subst h2
      have hviol := hp
      unfold isBondCountViolator at hp
      rw [Bool.and_eq_true, Bool.and_eq_true, Bool.and_eq_true] at hp
      obtain ⟨⟨⟨hq, hrad⟩, horg⟩, -⟩ := hp
      obtain ⟨el, vs, hfe, -⟩ := inOrganicSubset_elim p.2 horg
      refine ⟨of_decide_eq_true hq, ?_, horg, hviol, ?_, rfl, rfl⟩
      · rw [Bool.not_eq_true'] at hrad
        exact hrad
      · simp [hfe]

/-- Witness for C4 on `aromaticPairMolecule`: atom 0 (weight 3/2, not an
allowed carbon valence) is reported first, as a neutral, non-radical,
organic-subset violator. -/
theorem claim4_checkBondCounts_witness :
    aromaticPairMolecule.checkBondCounts =
      some (BondCountViolation.mk
        ((aromaticPairMolecule.findGroup 0).getD (Group.mkNew 0 0)) "C"
        (AdvError.mk ErrKind.invalidBondCount 0)) ∧
    ((aromaticPairMolecule.findGroup 0).getD (Group.mkNew 0 0)).charge = 0 ∧
    isBondCountViolator aromaticPairMolecule
      ((aromaticPairMolecule.findGroup 0).getD (Group.mkNew 0 0)) = true := by
  have h := (claim4_checkBondCounts aromaticPairMolecule).2
    (BondCountViolation.mk
      ((aromaticPairMolecule.findGroup 0).getD (Group.mkNew 0 0)) "C"
      (AdvError.mk ErrKind.invalidBondCount 0)) (by decide)
  exact ⟨by decide, h.1, h.2.2.2.1⟩

/-- Ring lookup after a ring update: the update rewrites the looked-up
ring exactly when its id matches, for any id-preserving rewrite. -/
theorem findRing_updateRing (ps : ParsedSMILES) (rid x : Nat)
    (f : Ring → Ring) (hf : ∀ r, (f r).id = r.id) :
    (ps.updateRing rid f).findRing x =
      (ps.findRing x).map (fun r => if r.id = rid then f r else r) := by
  unfold ParsedSMILES.updateRing ParsedSMILES.findRing
  simp only []
  induction ps.rings with
  | nil => rfl
  | cons r rest ih =>
    rw [List.map_cons, List.find?_cons, List.find?_cons]
    by_cases hx : r.id = x
    · have h1 : (if r.id = rid then f r else r).id = x := by
        by_cases hr : r.id = rid
        · rw [if_pos hr, hf]
          exact hx
        · rw [if_neg hr]
          exact hx
      rw [decide_eq_true h1, decide_eq_true hx]
      rfl
    · have h1 : ¬ (if r.id = rid then f r else r).id = x := by
        by_cases hr : r.id = rid
        · rw [if_pos hr, hf]
          exact hx
        · rw [if_neg hr]
          exact hx
      rw [decide_eq_false h1, decide_eq_false hx]
      exact ih

/-- Group updates do not touch the ring list. -/
theorem updateGroup_rings (ps : ParsedSMILES) (gid : Nat) (f : Group → Group) :
    (ps.updateGroup gid f).rings = ps.rings := rfl

/-- Aromatic-bond coercion over ring member pairs touches only groups,
never the ring list. -/
theorem coerceRingBonds_rings :
    ∀ prs (ps ps2 : ParsedSMILES), coerceRingBonds ps prs = .ok ps2 →
      ps2.rings = ps.rings := by
  intro prs
  induction prs with
  | nil =>
    intro ps ps2 h
    injection h with h2
    rw [h2]
  | cons pr rest ih =>
    intro ps ps2 h
    obtain ⟨a, b⟩ := pr
    unfold coerceRingBonds at h
    split at h
    · exact Except.noConfusion h
    · split at h
      · have h2 := ih _ _ h
        rw [h2]
        rfl
      · split at h
        · exact Except.noConfusion h
        · split at h
          · have h2 := ih _ _ h
            rw [h2]
            rfl
          · exact Except.noConfusion h

/-- Marking every open ring aromatic, functionally: when no open ring is
explicitly non-aromatic, the scan succeeds and the resulting ring list
is the original with the aromatic flag set on every open ring id. -/
theorem markOpenRingsAromatic_ok (col : Nat) :
    ∀ entries (ps : ParsedSMILES),
      (∀ pr ∈ entries, ∀ r, ps.findRing pr.2 = some r →
        ¬ r.isAromatic = some false) →
      markOpenRingsAromatic col ps entries =
        .ok { ps with rings := ps.rings.map (fun r =>
          if (entries.map (·.2)).contains r.id then
            { r with isAromatic := some true }
          else r) } := by
  intro entries
  induction entries with
  | nil =>
    intro ps _
    unfold markOpenRingsAromatic
    have h1 : ∀ r ∈ ps.rings,
        (if ((([] : List (Nat × Nat)).map (·.2)).contains r.id) then
          { r with isAromatic := some true }
        else r) = r := by
      intro r _
      simp
    rw [List.map_congr_left h1, List.map_id']
  | cons pr rest ih =>
    intro ps hyp
    unfold markOpenRingsAromatic
    split
    next hfr =>
      have hnone : ∀ r ∈ ps.rings, ¬ r.id = pr.2 := by
        intro r hr hid
        have hsome : (ps.rings.find? (fun r => r.id = pr.2)).isSome = true := by
          rw [List.find?_isSome]
          exact ⟨r, hr, by rw [decide_eq_true_eq]; exact hid⟩
        unfold ParsedSMILES.findRing at hfr
        rw [hfr] at hsome
        exact Bool.noConfusion hsome
      rw [ih ps (fun pr2 h2 => hyp pr2 (List.mem_cons_of_mem pr h2))]
      have hmaps : ps.rings.map (fun r =>
          if ((rest.map (·.2)).contains r.id) then
            { r with isAromatic := some true } else r) =
        ps.rings.map (fun r =>
          if (((pr :: rest).map (·.2)).contains r.id) then
            { r with isAromatic := some true } else r) := by
        apply List.map_congr_left
        intro r hr
        have hne : ¬ r.id = pr.2 := hnone r hr
        rw [List.map_cons, List.contains_cons]
        rw [show (r.id == pr.2) = false by rw [beq_eq_false_iff_ne]; exact hne]
        rw [Bool.false_or]
      rw [hmaps]
    next r0 hfr =>
      rw [if_neg (hyp pr (List.mem_cons_self pr rest) r0 hfr)]
      have hnext := ih (ps.updateRing pr.2 (fun r => { r with isAromatic := some true }))
        (by
          intro pr2 h2 r hr
          rw [findRing_updateRing ps pr.2 pr2.2
            (fun r => { r with isAromatic := some true }) (fun _ => rfl)] at hr
          cases hfr2 : ps.findRing pr2.2 with
          | none =>
            rw [hfr2] at hr
            exact Option.noConfusion hr
          | some rOrig =>
            rw [hfr2] at hr
            simp only [Option.map_some'] at hr
            injection hr with hr2
            by_cases hc : rOrig.id = pr.2
            · rw [if_pos hc] at hr2
              rw [← hr2]
              exact fun hf => Bool.noConfusion (Option.some.inj hf)
            · rw [if_neg hc] at hr2
              rw [← hr2]
              exact hyp pr2 (List.mem_cons_of_mem pr h2) rOrig hfr2)
      rw [hnext]
      have hmaps : (ps.updateRing pr.2
            (fun r => { r with isAromatic := some true })).rings.map
          (fun r => if ((rest.map (·.2)).contains r.id) then
            { r with isAromatic := some true } else r) =
        ps.rings.map (fun r =>
          if (((pr :: rest).map (·.2)).contains r.id) then
            { r with isAromatic := some true } else r) := by
        unfold ParsedSMILES.updateRing
        rw [List.map_map]
        apply List.map_congr_left
        intro r _
        rw [List.map_cons]
        show (fun r => if ((rest.map (·.2)).contains r.id) = true then
            { r with isAromatic := some true } else r)
          ((fun r => if r.id = pr.2 then { r with isAromatic := some true }
            else r) r) = _
        beta_reduce
        by_cases hc : r.id = pr.2
        · rw [if_pos hc]
          show (if ((rest.map (·.2)).contains r.id) = true then _ else _) = _
          have hcond : ((pr.2 :: rest.map (·.2)).contains r.id) = true := by
            rw [List.contains_cons]
            rw [show (r.id == pr.2) = true by rw [beq_iff_eq]; exact hc]
            rw [Bool.true_or]
          rw [if_pos hcond]
          by_cases hc3 : ((rest.map (·.2)).contains r.id) = true
          · rw [if_pos hc3]
          · rw [if_neg hc3]
        · rw [if_neg hc]
          show (if ((rest.map (·.2)).contains r.id) = true then _ else _) = _
          rw [List.contains_cons]
          rw [show (r.id == pr.2) = false by rw [beq_eq_false_iff_ne]; exact hc]
          rw [Bool.false_or]
      rw [hmaps]
      rfl

/-- An open ring already marked non-aromatic makes the scan fail (with
distinct open ring ids, the offending ring is still non-aromatic when
reached). -/
theorem markOpenRingsAromatic_err (col : Nat) :
    ∀ entries (ps : ParsedSMILES),
      (entries.map (·.2)).Nodup →
      (∃ pr ∈ entries, ∃ r, ps.findRing pr.2 = some r ∧
        r.isAromatic = some false) →
      markOpenRingsAromatic col ps entries =
        .error { kind := ErrKind.aromaticBondNonAromaticRing, col := col } := by
  intro entries
  induction entries with
  | nil =>
    intro ps _ hbad
    obtain ⟨pr, hmem, -⟩ := hbad
    exact absurd hmem (List.not_mem_nil pr)
  | cons pr rest ih =>
    intro ps hnd hbad
    rw [List.map_cons, List.nodup_cons] at hnd
    unfold markOpenRingsAromatic
    obtain ⟨prB, hmemB, rB, hfrB, hfalseB⟩ := hbad
    split
    next hfr =>
      rcases List.mem_cons.mp hmemB with heq | hmemRest
      · rw [heq] at hfrB
        rw [hfrB] at hfr
        exact Option.noConfusion hfr
      · exact ih ps hnd.2 ⟨prB, hmemRest, rB, hfrB, hfalseB⟩
    next r0 hfr =>
      by_cases hr0 : r0.isAromatic = some false
      · rw [if_pos hr0]
      · rw [if_neg hr0]
        rcases List.mem_cons.mp hmemB with heq | hmemRest
        · rw [heq] at hfrB
          rw [hfrB] at hfr
          injection hfr with h2
          rw [h2] at hfalseB
          exact absurd hfalseB hr0
        · apply ih _ hnd.2
          refine ⟨prB, hmemRest, rB, ?_, hfalseB⟩
          rw [findRing_updateRing ps pr.2 prB.2
            (fun r => { r with isAromatic := some true }) (fun _ => rfl)]
          rw [hfrB]
          simp only [Option.map_some']
          have hneB : ¬ rB.id = pr.2 := by
            have hidB : rB.id = prB.2 := by
              unfold ParsedSMILES.findRing at hfrB
              have := List.find?_some hfrB
              rw [decide_eq_true_eq] at this
              exact this
            rw [hidB]
            intro hc
            exact hnd.1 (hc ▸ List.mem_map.mpr ⟨prB, hmemRest, rfl⟩)
          rw [if_neg hneB]

/-- C3 (amended): an explicit aromatic bond symbol raises a Bond error
when there is no currently-open ring, or when some currently-open ring
has already been explicitly marked non-aromatic (given the distinct open
ring ids the parser maintains); otherwise it succeeds and marks every
currently-open ring aromatic. -/
theorem claim3_aromatic_bond (ps : ParsedSMILES) (col : Nat) :
    (ps.openRings.isEmpty = true →
      handleAromaticBond ps col =
        .error { kind := ErrKind.aromaticBondOutsideRing, col := col }) ∧
    (ps.openRings.isEmpty = false →
      (∀ pr ∈ ps.openRings, ∀ r, ps.findRing pr.2 = some r →
        ¬ r.isAromatic = some false) →
      handleAromaticBond ps col =
        .ok { ps with rings := ps.rings.map (fun r =>
          if ((ps.openRings.map (·.2)).contains r.id) then
            { r with isAromatic := some true }
          else r) }) ∧
    (ps.openRings.isEmpty = false →
      (ps.openRings.map (·.2)).Nodup →
      (∃ pr ∈ ps.openRings, ∃ r, ps.findRing pr.2 = some r ∧
        r.isAromatic = some false) →
      handleAromaticBond ps col =
        .error { kind := ErrKind.aromaticBondNonAromaticRing, col := col }) := by
  refine ⟨?_, ?_, ?_⟩
  · intro hemp
    unfold handleAromaticBond
    rw [if_pos hemp]
  · intro hne hyp
    unfold handleAromaticBond
    rw [if_neg (by rw [hne]; exact Bool.noConfusion)]
    exact markOpenRingsAromatic_ok col ps.openRings ps hyp
  · intro hne hnd hbad
    unfold handleAromaticBond
    rw [if_neg (by rw [hne]; exact Bool.noConfusion)]
    exact markOpenRingsAromatic_err col ps.openRings ps hnd hbad

/-- Witness for C3 (amended) at `openRingState`: the single open,
still-undecided ring gets marked aromatic. -/
theorem claim3_aromatic_bond_witness :
    openRingState.openRings.isEmpty = false ∧
    handleAromaticBond openRingState 2 =
      .ok { openRingState with rings := openRingState.rings.map (fun r =>
        if ((openRingState.openRings.map (·.2)).contains r.id) then
          { r with isAromatic := some true }
        else r) } :=
  ⟨by decide,
    (claim3_aromatic_bond openRingState 2).2.1 (by decide) (by decide)⟩


/-- The bond-index trace keeps the first accumulated atom and adds one
atom per bond index. -/
theorem traceBondPathGo_spec (m : Molecule) :
    ∀ cs a t last ms, traceBondPathGo m (a :: t) last cs = some ms →
      ms.length = t.length + 1 + cs.length ∧ ms.head? = some a := by
  intro cs
  induction cs with
  | nil =>
    intro a t last ms h
    injection h with h2
    rw [← h2]
    exact ⟨rfl, rfl⟩
  | cons c rest ih =>
    intro a t last ms h
    unfold traceBondPathGo at h
    split at h
    next b hb =>
      have h2 := ih a (t ++ [b.dest]) b.dest ms h
      refine ⟨?_, h2.2⟩
      rw [h2.1]
      simp only [List.length_append, List.length_cons, List.length_nil]
      omega
    next hb => exact Option.noConfusion h

/-- The tail of ring resolution only ever touches groups: the ring list
survives unchanged on success. -/
theorem resolveRingTail_rings (ps : ParsedSMILES) (mi : Nat) (ring : Ring)
    (ms : List Nat) (ps2 : ParsedSMILES)
    (h : resolveRingTail ps mi ring ms = .ok ps2) : ps2.rings = ps.rings := by
  unfold resolveRingTail at h
  split at h
  · exact Except.noConfusion h
  · split at h
    · exact Except.noConfusion h
    · split at h
      · exact Except.noConfusion h
      · split at h
        · split at h
          · exact coerceRingBonds_rings _ _ _ h
          · split at h
            · injection h with h2
              rw [← h2]
            · split at h
              · exact Except.noConfusion h
              · injection h with h2
                rw [← h2]
        · injection h with h2
          rw [← h2]

/-- C2 (amended): when the per-ring resolution succeeds, the ring member
list is replaced by the atom trace of the first walk of maximal length
among the walks that the shared-cursor depth-first search `pathfind`
returns between the ring start and end atoms restricted to the
provisional members (these walks may repeat atoms and need not include
every simple path), so the final member count is one more than that
maximal walk length in bonds. -/
theorem claim2_ring_resolution (ps : ParsedSMILES) (mi rid fuel : Nat)
    (mol : Molecule) (ring : Ring) (endId : Nat) (paths : List (List Nat))
    (ps2 : ParsedSMILES)
    (hmol : ps.molecules[mi]? = some mol)
    (hring : ps.findRing rid = some ring)
    (hend : ring.ringEnd = some endId)
    (hpf : mol.pathfind ring.start endId (some ring.members) fuel = .ok paths)
    (hok : resolveRing ps mi rid fuel = .ok ps2) :
    ∃ p, paths.find? (fun q =>
        q.length = (paths.map (fun q => q.length)).foldl max 0) = some p ∧
      p ∈ paths ∧
      p.length = (paths.map (fun q => q.length)).foldl max 0 ∧
      ∃ ms, mol.traceBondPath ring.start p = some ms ∧
        ps2.findRing rid = some { ring with members := ms } ∧
        ms.head? = some ring.start ∧
        ms.length = 1 + p.length := by
  have hid : ring.id = rid := by
    unfold ParsedSMILES.findRing at hring
    have h2 := List.find?_some hring
    rw [decide_eq_true_eq] at h2
    exact h2
  unfold resolveRing at hok
  split at hok
  next heq =>
    rw [hmol] at heq
    exact Option.noConfusion heq
  next m heq =>
    rw [hmol] at heq
    injection heq with heq
    subst heq
    split at hok
    next heq =>
      rw [hring] at heq
      exact Option.noConfusion heq
    next r heq =>
      rw [hring] at heq
      injection heq with heq
      subst heq
      split at hok
      next heq =>
        rw [hend] at heq
        exact Option.noConfusion heq
      next e heq =>
        rw [hend] at heq
        injection heq with heq
        subst heq
        split at hok
        next er heq =>
          rw [hpf] at heq
          exact Except.noConfusion heq
        next pths heq =>
          rw [hpf] at heq
          injection heq with heq
          subst heq
          split at hok
          next heq => exact Except.noConfusion hok
          next p hfind =>
            split at hok
            next heq => exact Except.noConfusion hok
            next ms htrace =>
              have hplen : p.length =
                  (paths.map (fun q => q.length)).foldl max 0 := by
                have h2 := List.find?_some hfind
                rw [decide_eq_true_eq] at h2
                exact h2
              have hsp := traceBondPathGo_spec mol p ring.start [] ring.start
                ms htrace
              refine ⟨p, hfind, List.mem_of_find?_eq_some hfind, hplen,
                ms, htrace, ?_, hsp.2, ?_⟩
              · have hrings := resolveRingTail_rings _ _ _ _ _ hok
                have hf2 : ps2.findRing rid =
                    (ps.updateRing rid
                      (fun r => { r with members := ms })).findRing rid := by
                  unfold ParsedSMILES.findRing
                  rw [hrings]
                rw [hf2, findRing_updateRing ps rid rid
                  (fun r => { r with members := ms }) (fun _ => rfl), hring]
                simp only [Option.map_some']
                rw [if_pos hid]
              · rw [hsp.1]
                simp

/-- Witness for C2 (amended) at `twoRingState`: the two-membered ring
resolves through the single one-bond walk [0], tracing to members [0, 1]
of length 1 + 1. -/
theorem claim2_ring_resolution_witness :
    ∃ p, ([[0]] : List (List Nat)).find? (fun q =>
        q.length = (([[0]] : List (List Nat)).map (fun q => q.length)).foldl
          max 0) = some p ∧
      p ∈ ([[0]] : List (List Nat)) ∧
      p.length = (([[0]] : List (List Nat)).map (fun q => q.length)).foldl
        max 0 ∧
      ∃ ms, twoRingMolecule.traceBondPath twoRing.start p = some ms ∧
        twoRingState.findRing 0 = some { twoRing with members := ms } ∧
        ms.head? = some twoRing.start ∧
        ms.length = 1 + p.length :=
  claim2_ring_resolution twoRingState 0 0 50 twoRingMolecule twoRing 1 [[0]]
    twoRingState (by decide) (by decide) (by decide) (by decide) (by decide)


/-- Updating the bonds of the entry keyed `gid` leaves lookups of any
other key unchanged. -/
theorem find?_update_ne (gid q : Nat) (bs : List Bond) (hne : ¬ q = gid) :
    ∀ l : List (Nat × Group),
      (l.map (fun p =>
        if p.1 = gid then (p.1, { p.2 with bonds := p.2.bonds ++ bs })
        else p)).find? (fun p => p.1 = q) =
      l.find? (fun p => p.1 = q) := by
  intro l
  induction l with
  | nil => rfl
  | cons p rest ih =>
    rw [List.map_cons]
    by_cases hp : p.1 = gid
    · rw [if_pos hp]
      have hcond : ¬ p.1 = q := fun h => hne (by rw [← h, hp])
      rw [List.find?_cons_of_neg _ (by rw [decide_eq_true_eq]; exact hcond)]
      rw [List.find?_cons_of_neg _ (by rw [decide_eq_true_eq]; exact hcond)]
      exact ih
    · rw [if_neg hp]
      by_cases hq : p.1 = q
      · rw [List.find?_cons_of_pos _ (by rw [decide_eq_true_eq]; exact hq)]
        rw [List.find?_cons_of_pos _ (by rw [decide_eq_true_eq]; exact hq)]
      · rw [List.find?_cons_of_neg _ (by rw [decide_eq_true_eq]; exact hq)]
        rw [List.find?_cons_of_neg _ (by rw [decide_eq_true_eq]; exact hq)]
        exact ih

/-- Looking up the updated key finds the bond-extended entry. -/
theorem find?_update_self (gid : Nat) (bs : List Bond) :
    ∀ l : List (Nat × Group),
      (l.map (fun p =>
        if p.1 = gid then (p.1, { p.2 with bonds := p.2.bonds ++ bs })
        else p)).find? (fun p => p.1 = gid) =
      (l.find? (fun p => p.1 = gid)).map
        (fun p => (p.1, { p.2 with bonds := p.2.bonds ++ bs })) := by
  intro l
  induction l with
  | nil => rfl
  | cons p rest ih =>
    rw [List.map_cons]
    by_cases hp : p.1 = gid
    · rw [if_pos hp]
      rw [List.find?_cons_of_pos _ (by rw [decide_eq_true_eq]; exact hp)]
      rw [List.find?_cons_of_pos _ (by rw [decide_eq_true_eq]; exact hp)]
      rw [Option.map_some']
    · rw [if_neg hp]
      rw [List.find?_cons_of_neg _ (by rw [decide_eq_true_eq]; exact hp)]
      rw [List.find?_cons_of_neg _ (by rw [decide_eq_true_eq]; exact hp)]
      exact ih

/-- Fresh hydrogen entries never collide with an existing (smaller) key. -/
theorem find?_fresh_none (nid k depth q : Nat) (hq : q < nid) :
    ((List.range k).map (fun j =>
      (nid + j, implicitHydrogen (nid + j) (depth + 1)))).find?
        (fun p => p.1 = q) = none := by
  rw [List.find?_eq_none]
  intro x hx
  obtain ⟨j, hj, rfl⟩ := List.mem_map.mp hx
  intro h
  rw [decide_eq_true_eq] at h
  omega

/-- `appendHydrogens` leaves every other (pre-existing) group unchanged. -/
theorem appendHydrogens_findGroup_ne (m : Molecule) (gid depth nid k q : Nat)
    (hq : q < nid) (hne : ¬ q = gid) :
    (appendHydrogens m gid depth nid k).findGroup q = m.findGroup q := by
  unfold appendHydrogens Molecule.findGroup
  dsimp only
  rw [List.find?_append, find?_update_ne gid q _ hne,
    find?_fresh_none nid k depth q hq, Option.or_none]

/-- `appendHydrogens` extends the target group by exactly the `k` fresh
single bonds. -/
theorem appendHydrogens_findGroup_self (m : Molecule) (gid depth nid k : Nat)
    (g : Group) (hfind : m.findGroup gid = some g) :
    (appendHydrogens m gid depth nid k).findGroup gid =
      some { g with bonds := g.bonds ++
        (List.range k).map (fun j => { bond := '-', dest := nid + j }) } := by
  unfold appendHydrogens Molecule.findGroup
  dsimp only
  rw [List.find?_append, find?_update_self gid _]
  unfold Molecule.findGroup at hfind
  cases hf : m.groups.find? (fun p => p.1 = gid) with
  | none =>
    rw [hf] at hfind
    exact Option.noConfusion hfind
  | some pr =>
    rw [hf] at hfind
    simp only [Option.map_some'] at hfind
    injection hfind with h2
    simp only [Option.map_some', Option.or_some]
    rw [h2]

/-- Every fresh hydrogen is present, implicit, and keyed by its id. -/
theorem appendHydrogens_findGroup_fresh (m : Molecule) (gid depth nid k j : Nat)
    (hj : j < k) (hfresh : ∀ x ∈ m.groups.map (fun p => p.1), x < nid) :
    (appendHydrogens m gid depth nid k).findGroup (nid + j) =
      some (implicitHydrogen (nid + j) (depth + 1)) := by
  unfold appendHydrogens Molecule.findGroup
  dsimp only
  rw [List.find?_append]
  have h1 : (m.groups.map (fun p =>
      if p.1 = gid then
        (p.1, { p.2 with bonds := p.2.bonds ++
          (List.range k).map (fun j => { bond := '-', dest := nid + j }) })
      else p)).find? (fun p => p.1 = nid + j) = none := by
    rw [List.find?_eq_none]
    intro x hx
    obtain ⟨p0, hp0, rfl⟩ := List.mem_map.mp hx
    have hlt : p0.1 < nid := hfresh p0.1 (List.mem_map.mpr ⟨p0, hp0, rfl⟩)
    by_cases hpg : p0.1 = gid
    · rw [if_pos hpg]
      intro h
      rw [decide_eq_true_eq] at h
      omega
    · rw [if_neg hpg]
      intro h
      rw [decide_eq_true_eq] at h
      omega
  rw [h1, Option.none_or]
  have h2 : ∀ k2 : Nat, j < k2 →
      ((List.range k2).map (fun j2 =>
        (nid + j2, implicitHydrogen (nid + j2) (depth + 1)))).find?
          (fun p => p.1 = nid + j) =
        some (nid + j, implicitHydrogen (nid + j) (depth + 1)) := by
    intro k2
    induction k2 with
    | zero => intro h; omega
    | succ k3 ih =>
      intro hj2
      rw [List.range_succ, List.map_append, List.find?_append]
      by_cases hj3 : j < k3
      · rw [ih hj3, Option.or_some]
      · have hje : j = k3 := by omega
        subst hje
        have hnone : ((List.range j).map (fun j2 =>
            (nid + j2, implicitHydrogen (nid + j2) (depth + 1)))).find?
              (fun p => p.1 = nid + j) = none := by
          rw [List.find?_eq_none]
          intro x hx
          obtain ⟨j2, hj2m, rfl⟩ := List.mem_map.mp hx
          rw [List.mem_range] at hj2m
          intro h
          rw [decide_eq_true_eq] at h
          omega
        rw [hnone, Option.none_or, List.map_cons,
          List.find?_cons_of_pos _ (by rw [decide_eq_true_eq])]
  rw [h2 k hj, Option.map_some']

/-- `appendHydrogens` leaves the cross-bond records pointing at any
other, pre-existing group untouched (the new bonds all point at fresh
hydrogen ids and the new hydrogens carry no stored bonds). -/
theorem appendHydrogens_crossBonds (m : Molecule) (gid depth nid k q : Nat)
    (hq : q < nid) :
    (appendHydrogens m gid depth nid k).groups.flatMap
      (fun p => if p.1 = q then [] else p.2.bonds.filter (fun b => b.dest = q)) =
    m.groups.flatMap
      (fun p => if p.1 = q then [] else p.2.bonds.filter (fun b => b.dest = q)) := by
  unfold appendHydrogens
  dsimp only
  rw [List.flatMap_append]
  have hfr : ((List.range k).map (fun j =>
      (nid + j, implicitHydrogen (nid + j) (depth + 1)))).flatMap
        (fun p => if p.1 = q then []
          else p.2.bonds.filter (fun b => b.dest = q)) = [] := by
    rw [List.flatMap_eq_nil_iff]
    intro x hx
    obtain ⟨j, hj, rfl⟩ := List.mem_map.mp hx
    by_cases hc : nid + j = q
    · rw [if_pos hc]
    · rw [if_neg hc]
      rfl
  rw [hfr, List.append_nil]
  induction m.groups with
  | nil => rfl
  | cons p rest ih =>
    rw [List.map_cons, List.flatMap_cons, List.flatMap_cons, ih]
    congr 1
    by_cases hp : p.1 = gid
    · rw [if_pos hp]
      by_cases hpq : p.1 = q
      · rw [if_pos hpq, if_pos hpq]
      · rw [if_neg hpq, if_neg hpq, List.filter_append]
        have hbs : ((List.range k).map
            (fun j => ({ bond := '-', dest := nid + j } : Bond))).filter
              (fun b => b.dest = q) = [] := by
          rw [List.filter_eq_nil_iff]
          intro b hb
          obtain ⟨j, hj, rfl⟩ := List.mem_map.mp hb
          intro h
          rw [decide_eq_true_eq] at h
          have h2 : nid + j = q := h
          omega
        rw [hbs, List.append_nil]
    · rw [if_neg hp]

/-- `appendHydrogens` does not change the total bond weight of any
other, pre-existing group. -/
theorem appendHydrogens_getBondCount_ne (m : Molecule) (gid depth nid k q : Nat)
    (hq : q < nid) (hne : ¬ q = gid) :
    (appendHydrogens m gid depth nid k).getBondCount q = m.getBondCount q := by
  unfold Molecule.getBondCount Molecule.ownBonds
  rw [appendHydrogens_findGroup_ne m gid depth nid k q hq hne,
    appendHydrogens_crossBonds m gid depth nid k q hq]

/-- The keys after `appendHydrogens`: the old keys followed by the `k`
fresh hydrogen ids. -/
theorem appendHydrogens_keys (m : Molecule) (gid depth nid k : Nat) :
    (appendHydrogens m gid depth nid k).groups.map (fun p => p.1) =
      m.groups.map (fun p => p.1) ++ (List.range k).map (fun j => nid + j) := by
  unfold appendHydrogens
  dsimp only
  rw [List.map_append, List.map_map, List.map_map]
  congr 1
  apply List.map_congr_left
  intro p _
  by_cases hp : p.1 = gid <;> simp [hp]

/-- `appendHydrogens` keeps every entry keyed by its own group id. -/
theorem appendHydrogens_consistent (m : Molecule) (gid depth nid k : Nat)
    (hcons : ∀ p ∈ m.groups, p.2.id = p.1) :
    ∀ p ∈ (appendHydrogens m gid depth nid k).groups, p.2.id = p.1 := by
  intro p hp
  unfold appendHydrogens at hp
  dsimp only at hp
  rcases List.mem_append.mp hp with h | h
  · obtain ⟨p0, hp0, rfl⟩ := List.mem_map.mp h
    by_cases hpg : p0.1 = gid
    · rw [if_pos hpg]
      exact hcons p0 hp0
    · rw [if_neg hpg]
      exact hcons p0 hp0
  · obtain ⟨j, hj, rfl⟩ := List.mem_map.mp h
    rfl

/-- A group found in an id-keyed molecule carries the looked-up id. -/
theorem findGroup_id (m : Molecule) (x : Nat) (g : Group)
    (hcons : ∀ p ∈ m.groups, p.2.id = p.1) (h : m.findGroup x = some g) :
    g.id = x := by
  unfold Molecule.findGroup at h
  cases hf : m.groups.find? (fun p => p.1 = x) with
  | none =>
    rw [hf] at h
    exact Option.noConfusion h
  | some pr =>
    rw [hf] at h
    simp only [Option.map_some'] at h
    injection h with h2
    have hm := List.mem_of_find?_eq_some hf
    have hp := List.find?_some hf
    rw [decide_eq_true_eq] at hp
    rw [← h2, hcons pr hm, hp]


/-- The qualifying step: a present, neutral, non-radical, organic-subset
group with a reachable valence gets its hydrogens appended and the id
counter advanced. -/
theorem implicitHydrogenStep_eq_append (m : Molecule) (nid x : Nat)
    (g : Group) (el : String) (target : Nat)
    (hfg : m.findGroup x = some g) (hgid : g.id = x)
    (hrad : g.isRadical = false) (horg : g.inOrganicSubset = true)
    (hch : g.charge = 0) (hel : g.firstElement = some el)
    (htgt : ((organicSubsetLookup el).getD []).find?
      (fun n => m.getBondCount x ≤ 2 * n) = some target) :
    implicitHydrogenStep m nid x =
      (appendHydrogens m x g.chainDepth nid
        (halfCeil (2 * target - m.getBondCount x)),
       nid + halfCeil (2 * target - m.getBondCount x)) := by
  unfold implicitHydrogenStep
  rw [hfg]
  split
  next heq => exact Option.noConfusion heq
  next group heq =>
    injection heq with heq
    subst heq
    rw [hrad, horg, if_pos (show (!false && true) = true from rfl), hch,
      if_pos (show (0 : Int) = 0 from rfl), hel]
    split
    next heq2 => exact Option.noConfusion heq2
    next el2 heq2 =>
      injection heq2 with heq2
      subst heq2
      rw [hgid, htgt]

/-- The skipping step: when no allowed valence reaches the current bond
weight, nothing is appended. -/
theorem implicitHydrogenStep_eq_skip (m : Molecule) (nid x : Nat)
    (g : Group) (el : String)
    (hfg : m.findGroup x = some g) (hgid : g.id = x)
    (hrad : g.isRadical = false) (horg : g.inOrganicSubset = true)
    (hch : g.charge = 0) (hel : g.firstElement = some el)
    (hnone : ((organicSubsetLookup el).getD []).find?
      (fun n => m.getBondCount x ≤ 2 * n) = none) :
    implicitHydrogenStep m nid x = (m, nid) := by
  unfold implicitHydrogenStep
  rw [hfg]
  split
  next heq => exact Option.noConfusion heq
  next group heq =>
    injection heq with heq
    subst heq
    rw [hrad, horg, if_pos (show (!false && true) = true from rfl), hch,
      if_pos (show (0 : Int) = 0 from rfl), hel]
    split
    next heq2 => exact Option.noConfusion heq2
    next el2 heq2 =>
      injection heq2 with heq2
      subst heq2
      rw [hgid, hnone]

/-- A single loop step never touches any other pre-existing group, never
lowers the id counter, and keeps entries keyed by their ids. -/
theorem implicitHydrogenStep_preserve (m : Molecule) (nid x q : Nat)
    (hcons : ∀ p ∈ m.groups, p.2.id = p.1) (hq : q < nid) (hne : ¬ q = x) :
    (implicitHydrogenStep m nid x).1.findGroup q = m.findGroup q ∧
    (implicitHydrogenStep m nid x).1.getBondCount q = m.getBondCount q ∧
    nid ≤ (implicitHydrogenStep m nid x).2 ∧
    (∀ p ∈ (implicitHydrogenStep m nid x).1.groups, p.2.id = p.1) := by
  unfold implicitHydrogenStep
  split
  · exact ⟨rfl, rfl, Nat.le_refl nid, hcons⟩
  next group heq =>
    split
    · split
      · split
        · exact ⟨rfl, rfl, Nat.le_refl nid, hcons⟩
        next el2 heq2 =>
          split
          · exact ⟨rfl, rfl, Nat.le_refl nid, hcons⟩
          next target heq3 =>
            have hgid : group.id = x := findGroup_id m x group hcons heq
            have hneq : ¬ q = group.id := by rw [hgid]; exact hne
            refine ⟨appendHydrogens_findGroup_ne m group.id group.chainDepth
                nid _ q hq hneq,
              appendHydrogens_getBondCount_ne m group.id group.chainDepth
                nid _ q hq hneq,
              Nat.le_add_right nid _,
              appendHydrogens_consistent m group.id group.chainDepth
                nid _ hcons⟩
      · exact ⟨rfl, rfl, Nat.le_refl nid, hcons⟩
    · exact ⟨rfl, rfl, Nat.le_refl nid, hcons⟩

/-- A single loop step keeps every group id below the id counter. -/
theorem implicitHydrogenStep_fresh (m : Molecule) (nid x : Nat)
    (hfresh : ∀ y ∈ m.groups.map (fun p => p.1), y < nid) :
    ∀ y ∈ (implicitHydrogenStep m nid x).1.groups.map (fun p => p.1),
      y < (implicitHydrogenStep m nid x).2 := by
  unfold implicitHydrogenStep
  split
  · exact hfresh
  next group heq =>
    split
    · split
      · split
        · exact hfresh
        next el2 heq2 =>
          split
          · exact hfresh
          next target heq3 =>
            intro y hy
            rw [appendHydrogens_keys] at hy
            rcases List.mem_append.mp hy with h1 | h1
            · have := hfresh y h1
              omega
            · obtain ⟨j, hjr, rfl⟩ := List.mem_map.mp h1
              rw [List.mem_range] at hjr
              omega
      · exact hfresh
    · exact hfresh

/-- The snapshot loop splits over list concatenation. -/
theorem addImplicitHydrogensGo_append :
    ∀ l1 (l2 : List Nat) (m : Molecule) (nid : Nat),
      addImplicitHydrogensGo m nid (l1 ++ l2) =
        addImplicitHydrogensGo (addImplicitHydrogensGo m nid l1).1
          (addImplicitHydrogensGo m nid l1).2 l2 := by
  intro l1
  induction l1 with
  | nil => intro l2 m nid; rfl
  | cons x rest ih =>
    intro l2 m nid
    exact ih l2 (implicitHydrogenStep m nid x).1 (implicitHydrogenStep m nid x).2

/-- Processing a snapshot that avoids `q` leaves the group `q`, its
total bond weight and the key consistency unchanged, and never lowers
the id counter. -/
theorem addImplicitHydrogensGo_preserve :
    ∀ todo (m : Molecule) (nid q : Nat),
      (∀ p ∈ m.groups, p.2.id = p.1) → q < nid → q ∉ todo →
      (addImplicitHydrogensGo m nid todo).1.findGroup q = m.findGroup q ∧
      (addImplicitHydrogensGo m nid todo).1.getBondCount q = m.getBondCount q ∧
      nid ≤ (addImplicitHydrogensGo m nid todo).2 ∧
      (∀ p ∈ (addImplicitHydrogensGo m nid todo).1.groups, p.2.id = p.1) := by
  intro todo
  induction todo with
  | nil =>
    intro m nid q hcons hq _
    exact ⟨rfl, rfl, Nat.le_refl nid, hcons⟩
  | cons x rest ih =>
    intro m nid q hcons hq hnot
    have hne_x : ¬ q = x := fun h => hnot (h ▸ List.mem_cons_self x rest)
    have hnot_rest : q ∉ rest := fun h => hnot (List.mem_cons_of_mem x h)
    have hstep := implicitHydrogenStep_preserve m nid x q hcons hq hne_x
    have hrw : addImplicitHydrogensGo m nid (x :: rest) =
        addImplicitHydrogensGo (implicitHydrogenStep m nid x).1
          (implicitHydrogenStep m nid x).2 rest := rfl
    rw [hrw]
    have hih := ih (implicitHydrogenStep m nid x).1
      (implicitHydrogenStep m nid x).2 q hstep.2.2.2
      (Nat.lt_of_lt_of_le hq hstep.2.2.1) hnot_rest
    refine ⟨?_, ?_, ?_, hih.2.2.2⟩
    · rw [hih.1, hstep.1]
    · rw [hih.2.1, hstep.2.1]
    · exact Nat.le_trans hstep.2.2.1 hih.2.2.1

/-- Processing a snapshot keeps every group id below the id counter. -/
theorem addImplicitHydrogensGo_fresh :
    ∀ todo (m : Molecule) (nid : Nat),
      (∀ y ∈ m.groups.map (fun p => p.1), y < nid) →
      ∀ y ∈ (addImplicitHydrogensGo m nid todo).1.groups.map (fun p => p.1),
        y < (addImplicitHydrogensGo m nid todo).2 := by
  intro todo
  induction todo with
  | nil =>
    intro m nid h
    exact h
  | cons x rest ih =>
    intro m nid h
    exact ih (implicitHydrogenStep m nid x).1 (implicitHydrogenStep m nid x).2
      (implicitHydrogenStep_fresh m nid x h)


/-- C5 (amended): for a neutral, non-radical, organic-subset atom,
`addImplicitHydrogens` finds the first allowed valence of its element at
least the current total bond-count weight and appends exactly the
ceiling of (that valence minus the current weight, in half-units) new
hydrogen atoms — the loop-count semantics of the source, which rounds a
fractional difference up — each flagged implicit and singly bonded from
the atom; when no allowed valence is large enough the atom is left
unchanged. -/
theorem claim5_implicit_hydrogens (m : Molecule) (nid gid : Nat) (g : Group)
    (el : String)
    (hnd : (m.groups.map (fun p => p.1)).Nodup)
    (hfresh : ∀ x ∈ m.groups.map (fun p => p.1), x < nid)
    (hcons : ∀ p ∈ m.groups, p.2.id = p.1)
    (hfind : m.findGroup gid = some g)
    (hrad : g.isRadical = false)
    (horg : g.inOrganicSubset = true)
    (hch : g.charge = 0)
    (hel : g.firstElement = some el) :
    (∀ target : Nat,
      ((organicSubsetLookup el).getD []).find?
          (fun n => m.getBondCount gid ≤ 2 * n) = some target →
      ∃ nid1, nid ≤ nid1 ∧
        (m.addImplicitHydrogens nid).1.findGroup gid =
          some { g with bonds := g.bonds ++ (List.range (halfCeil (2 * target - m.getBondCount gid))).map (fun j => { bond := '-', dest := nid1 + j }) } ∧
        (∀ j, j < halfCeil (2 * target - m.getBondCount gid) →
          (m.addImplicitHydrogens nid).1.findGroup (nid1 + j) =
            some (implicitHydrogen (nid1 + j) (g.chainDepth + 1)))) ∧
    (((organicSubsetLookup el).getD []).find?
        (fun n => m.getBondCount gid ≤ 2 * n) = none →
      (m.addImplicitHydrogens nid).1.findGroup gid = some g) := by
  have hmem : gid ∈ m.groups.map (fun p => p.1) := by
    have hf2 := hfind
    unfold Molecule.findGroup at hf2
    cases hf : m.groups.find? (fun p => p.1 = gid) with
    | none =>
      rw [hf] at hf2
      exact Option.noConfusion hf2
    | some pr =>
      have hm := List.mem_of_find?_eq_some hf
      have hp := List.find?_some hf
      rw [decide_eq_true_eq] at hp
      exact List.mem_map.mpr ⟨pr, hm, hp⟩
  obtain ⟨pre, post, hsplit⟩ := List.append_of_mem hmem
  have hnd2 := hnd
  rw [hsplit] at hnd2
  have hpp := List.nodup_append.mp hnd2
  have hgpre : gid ∉ pre := fun hmem2 =>
    hpp.2.2 hmem2 (List.mem_cons_self gid post)
  have hgpost : gid ∉ post := (List.nodup_cons.mp hpp.2.1).1
  have hgidlt : gid < nid := hfresh gid hmem
  have hpostlt : ∀ y ∈ post, y < nid := by
    intro y hy
    refine hfresh y ?_
    rw [hsplit]
    exact List.mem_append_right pre (List.mem_cons_of_mem gid hy)
  have hgid : g.id = gid := findGroup_id m gid g hcons hfind
  have hP := addImplicitHydrogensGo_preserve pre m nid gid hcons hgidlt hgpre
  have hF := addImplicitHydrogensGo_fresh pre m nid hfresh
  unfold Molecule.addImplicitHydrogens
  rw [hsplit, addImplicitHydrogensGo_append]
  cases hr1 : addImplicitHydrogensGo m nid pre with
  | mk m1 nid1 =>
  rw [hr1] at hP hF
  dsimp only at hP hF ⊢
  obtain ⟨hPfg, hPbc, hPle, hPcons⟩ := hP
  have hm1fg : m1.findGroup gid = some g := by
    rw [hPfg]
    exact hfind
  constructor
  · intro target htgt
    have htgt1 : ((organicSubsetLookup el).getD []).find?
        (fun n => m1.getBondCount gid ≤ 2 * n) = some target := by
      rw [hPbc]
      exact htgt
    have hrw : addImplicitHydrogensGo m1 nid1 (gid :: post) =
        addImplicitHydrogensGo (implicitHydrogenStep m1 nid1 gid).1
          (implicitHydrogenStep m1 nid1 gid).2 post := rfl
    rw [hrw, implicitHydrogenStep_eq_append m1 nid1 gid g el target hm1fg
      hgid hrad horg hch hel htgt1]
    dsimp only
    rw [hPbc]
    refine ⟨nid1, hPle, ?_, ?_⟩
    · have hpost := addImplicitHydrogensGo_preserve post
        (appendHydrogens m1 gid g.chainDepth nid1
          (halfCeil (2 * target - m.getBondCount gid)))
        (nid1 + halfCeil (2 * target - m.getBondCount gid)) gid
        (appendHydrogens_consistent m1 gid g.chainDepth nid1 _ hPcons)
        (by omega) hgpost
      rw [hpost.1,
        appendHydrogens_findGroup_self m1 gid g.chainDepth nid1 _ g hm1fg]
    · intro j hj
      have hpostj := addImplicitHydrogensGo_preserve post
        (appendHydrogens m1 gid g.chainDepth nid1
          (halfCeil (2 * target - m.getBondCount gid)))
        (nid1 + halfCeil (2 * target - m.getBondCount gid)) (nid1 + j)
        (appendHydrogens_consistent m1 gid g.chainDepth nid1 _ hPcons)
        (by omega)
        (fun hmem3 => by have h5 := hpostlt _ hmem3; omega)
      rw [hpostj.1,
        appendHydrogens_findGroup_fresh m1 gid g.chainDepth nid1 _ j hj hF]
  · intro hnone
    have hnone1 : ((organicSubsetLookup el).getD []).find?
        (fun n => m1.getBondCount gid ≤ 2 * n) = none := by
      rw [hPbc]
      exact hnone
    have hrw : addImplicitHydrogensGo m1 nid1 (gid :: post) =
        addImplicitHydrogensGo (implicitHydrogenStep m1 nid1 gid).1
          (implicitHydrogenStep m1 nid1 gid).2 post := rfl
    rw [hrw, implicitHydrogenStep_eq_skip m1 nid1 gid g el hm1fg hgid hrad
      horg hch hel hnone1]
    dsimp only
    have hpost := addImplicitHydrogensGo_preserve post m1 nid1 gid hPcons
      (by omega) hgpost
    rw [hpost.1, hm1fg]

/-- Witness for C5 (amended) at `aromaticPairMolecule`: carbon 0 carries
weight 3 (half-units), the first reachable valence is 4, and exactly
ceil(5 half-units) = 3 implicit hydrogens are appended. -/
theorem claim5_implicit_hydrogens_witness :
    ∃ nid1, 2 ≤ nid1 ∧
      (aromaticPairMolecule.addImplicitHydrogens 2).1.findGroup 0 =
        some { aromaticPairG0 with bonds := aromaticPairG0.bonds ++ (List.range (halfCeil (2 * 4 - aromaticPairMolecule.getBondCount 0))).map (fun j => { bond := '-', dest := nid1 + j }) } ∧
      (∀ j, j < halfCeil
          (2 * 4 - aromaticPairMolecule.getBondCount 0) →
        (aromaticPairMolecule.addImplicitHydrogens 2).1.findGroup
            (nid1 + j) =
          some (implicitHydrogen (nid1 + j)
            (aromaticPairG0.chainDepth + 1))) :=
  (claim5_implicit_hydrogens aromaticPairMolecule 2 0 aromaticPairG0 "C"
    (by decide) (by decide) (by decide) (by decide) (by decide) (by decide)
    (by decide) (by decide)).1 4 (by decide)


/-- The charge comparator is transitive. -/
theorem chargeLEb_trans (a b c : IAtomCount) (h1 : chargeLEb a b = true)
    (h2 : chargeLEb b c = true) : chargeLEb a c = true := by
  unfold chargeLEb at h1 h2 ⊢
  cases hA : a.charge with
  | none => rfl
  | some x =>
    rw [hA] at h1
    cases hB : b.charge with
    | none =>
      rw [hB] at h1
      exact Bool.noConfusion h1
    | some y =>
      rw [hB] at h1 h2
      cases hC : c.charge with
      | none =>
        rw [hC] at h2
        exact Bool.noConfusion h2
      | some z =>
        rw [hC] at h2
        have h1x : x ≤ y := of_decide_eq_true h1
        have h2x : y ≤ z := of_decide_eq_true h2
        show decide (x ≤ z) = true
        rw [decide_eq_true_eq]
        omega

/-- The charge comparator is total. -/
theorem chargeLEb_total (a b : IAtomCount) :
    (chargeLEb a b || chargeLEb b a) = true := by
  unfold chargeLEb
  cases hA : a.charge with
  | none => rfl
  | some x =>
    cases hB : b.charge with
    | none => rfl
    | some y =>
      show (decide (x ≤ y) || decide (y ≤ x)) = true
      rcases Int.le_total x y with h | h
      · rw [decide_eq_true h, Bool.true_or]
      · rw [decide_eq_true h, Bool.or_true]

/-- Code-point lexicographic comparison is transitive. -/
theorem lexLEb_trans : ∀ a b c : List Char, lexLEb a b = true →
    lexLEb b c = true → lexLEb a c = true := by
  intro a
  induction a with
  | nil => intro b c _ _; rfl
  | cons x xs ih =>
    intro b c h1 h2
    cases b with
    | nil => exact Bool.noConfusion h1
    | cons y ys =>
      cases c with
      | nil => exact Bool.noConfusion h2
      | cons z zs =>
        unfold lexLEb at h1 h2 ⊢
        by_cases hxy : x = y
        · rw [if_pos hxy] at h1
          by_cases hyz : y = z
          · rw [if_pos hyz] at h2
            rw [if_pos (hxy.trans hyz)]
            exact ih ys zs h1 h2
          · rw [if_neg hyz] at h2
            rw [if_neg (show ¬ x = z from fun h => hyz (by rw [← hxy, h]))]
            rw [hxy]
            exact h2
        · rw [if_neg hxy] at h1
          by_cases hyz : y = z
          · rw [if_neg (show ¬ x = z from fun h => hxy (h.trans hyz.symm))]
            rw [← hyz]
            exact h1
          · rw [if_neg hyz] at h2
            have hx : x < y := of_decide_eq_true h1
            have hy : y < z := of_decide_eq_true h2
            have hxz : x < z := lt_trans hx hy
            rw [if_neg (ne_of_lt hxz)]
            exact decide_eq_true hxz

/-- Code-point lexicographic comparison is total. -/
theorem lexLEb_total : ∀ a b : List Char,
    (lexLEb a b || lexLEb b a) = true := by
  intro a
  induction a with
  | nil => intro b; rfl
  | cons x xs ih =>
    intro b
    cases b with
    | nil => rfl
    | cons y ys =>
      unfold lexLEb
      by_cases hxy : x = y
      · rw [if_pos hxy, if_pos hxy.symm]
        exact ih ys
      · rw [if_neg hxy, if_neg (fun h => hxy h.symm)]
        rcases lt_trichotomy x y with h | h | h
        · rw [decide_eq_true h, Bool.true_or]
        · exact absurd h hxy
        · rw [decide_eq_true h, Bool.or_true]

/-- The default string comparator is transitive. -/
theorem strLEb_trans (a b c : String) (h1 : strLEb a b = true)
    (h2 : strLEb b c = true) : strLEb a c = true :=
  lexLEb_trans a.data b.data c.data h1 h2

/-- The default string comparator is total. -/
theorem strLEb_total (a b : String) : (strLEb a b || strLEb b a) = true :=
  lexLEb_total a.data b.data

/-- The first-occurrence key collection yields no duplicates. -/
theorem collectKeys_nodup : ∀ (l : List IAtomCount) (acc : List String),
    acc.Nodup → (collectKeys l acc).Nodup := by
  intro l
  induction l with
  | nil => intro acc h; exact h
  | cons g rest ih =>
    intro acc h
    unfold collectKeys
    split
    next hcontains => exact ih acc h
    next hcontains =>
      refine ih (acc ++ [g.atom]) ?_
      rw [List.nodup_append]
      refine ⟨h, List.nodup_singleton _, ?_⟩
      intro x hx hx2
      rw [List.mem_singleton] at hx2
      subst hx2
      exact hcontains (List.elem_eq_true_of_mem hx)

/-- The pairwise Hill ordering of the three concatenated stages, given
only which element class each stage holds and the distinctness of the
collected element keys. -/
theorem hillBlocks_pairwise (carbons hydrogens rest2 : List IAtomCount)
    (keys : List String)
    (hc : ∀ a ∈ carbons, a.atom = "C")
    (hh : ∀ a ∈ hydrogens, a.atom = "H")
    (hr : ∀ a ∈ rest2, ¬ a.atom = "C" ∧ ¬ a.atom = "H")
    (hk : keys.Nodup) :
    List.Pairwise hillRel
      (carbons.mergeSort chargeLEb ++ hydrogens.mergeSort chargeLEb ++
        (keys.mergeSort strLEb).flatMap
          (fun k => (rest2.filter (fun a => a.atom = k)).mergeSort
            chargeLEb)) := by
  rw [List.append_assoc, List.pairwise_append, List.pairwise_append]
  refine ⟨?_, ⟨?_, ?_, ?_⟩, ?_⟩
  · refine List.Pairwise.imp_of_mem ?_
      (List.sorted_mergeSort chargeLEb_trans chargeLEb_total carbons)
    intro a b ha hb hab
    have ha2 := hc a (List.mem_mergeSort.mp ha)
    have hb2 := hc b (List.mem_mergeSort.mp hb)
    exact Or.inr (Or.inl ⟨by unfold hillRank; rw [ha2, hb2],
      ha2.trans hb2.symm, hab⟩)
  · refine List.Pairwise.imp_of_mem ?_
      (List.sorted_mergeSort chargeLEb_trans chargeLEb_total hydrogens)
    intro a b ha hb hab
    have ha2 := hh a (List.mem_mergeSort.mp ha)
    have hb2 := hh b (List.mem_mergeSort.mp hb)
    exact Or.inr (Or.inl ⟨by unfold hillRank; rw [ha2, hb2],
      ha2.trans hb2.symm, hab⟩)
  · show List.Pairwise hillRel
      (((keys.mergeSort strLEb).map
        (fun k => (rest2.filter (fun a => a.atom = k)).mergeSort
          chargeLEb)).flatten)
    rw [List.pairwise_flatten]
    constructor
    · intro l2 hl2
      obtain ⟨k, hkmem, rfl⟩ := List.mem_map.mp hl2
      refine List.Pairwise.imp_of_mem ?_
        (List.sorted_mergeSort chargeLEb_trans chargeLEb_total _)
      intro a b ha hb hab
      have ha2 : a.atom = k := of_decide_eq_true
        (List.mem_filter.mp (List.mem_mergeSort.mp ha)).2
      have hb2 : b.atom = k := of_decide_eq_true
        (List.mem_filter.mp (List.mem_mergeSort.mp hb)).2
      exact Or.inr (Or.inl ⟨by unfold hillRank; rw [ha2, hb2],
        ha2.trans hb2.symm, hab⟩)
    · rw [List.pairwise_map]
      have hsort := List.sorted_mergeSort strLEb_trans strLEb_total keys
      have hnd2 : (keys.mergeSort strLEb).Nodup :=
        (List.mergeSort_perm keys strLEb).nodup_iff.mpr hk
      refine List.Pairwise.imp_of_mem ?_ (List.Pairwise.and hsort hnd2)
      intro k1 k2 hk1 hk2 hrel x hx y hy
      have hx2 : x ∈ rest2 ∧ x.atom = k1 := by
        have h3 := List.mem_filter.mp (List.mem_mergeSort.mp hx)
        exact ⟨h3.1, of_decide_eq_true h3.2⟩
      have hy2 : y ∈ rest2 ∧ y.atom = k2 := by
        have h3 := List.mem_filter.mp (List.mem_mergeSort.mp hy)
        exact ⟨h3.1, of_decide_eq_true h3.2⟩
      have hxr := hr x hx2.1
      have hyr := hr y hy2.1
      refine Or.inr (Or.inr ⟨?_, ?_, ?_, ?_⟩)
      · unfold hillRank
        rw [if_neg hxr.1, if_neg hxr.2]
      · unfold hillRank
        rw [if_neg hyr.1, if_neg hyr.2]
      · rw [hx2.2, hy2.2]
        exact hrel.2
      · rw [hx2.2, hy2.2]
        exact hrel.1
  · intro a ha b hb
    have ha2 := hh a (List.mem_mergeSort.mp ha)
    obtain ⟨k, hkmem, hbk⟩ := List.mem_flatMap.mp hb
    have hb2 := hr b (List.mem_filter.mp (List.mem_mergeSort.mp hbk)).1
    refine Or.inl ?_
    have h1 : hillRank a = 1 := by
      unfold hillRank
      rw [ha2]
      decide
    have h2 : hillRank b = 2 := by
      unfold hillRank
      rw [if_neg hb2.1, if_neg hb2.2]
    rw [h1, h2]
    omega
  · intro a ha b hb
    have ha2 := hc a (List.mem_mergeSort.mp ha)
    have h0 : hillRank a = 0 := by
      unfold hillRank
      rw [ha2]
      decide
    refine Or.inl ?_
    rw [h0]
    rcases List.mem_append.mp hb with h | h
    · have hb2 := hh b (List.mem_mergeSort.mp h)
      have h1 : hillRank b = 1 := by
        unfold hillRank
        rw [hb2]
        decide
      omega
    · obtain ⟨k, hkmem, hbk⟩ := List.mem_flatMap.mp h
      have hb2 := hr b (List.mem_filter.mp (List.mem_mergeSort.mp hbk)).1
      have h2 : hillRank b = 2 := by
        unfold hillRank
        rw [if_neg hb2.1, if_neg hb2.2]
      omega

/-- The Hill ordering stage always emits a `hillRel`-ordered list. -/
theorem hillOrderStage_pairwise (atoms : List IAtomCount) :
    List.Pairwise hillRel (hillOrderStage atoms) := by
  refine hillBlocks_pairwise
    ((atoms.filter (fun a => a.atom = "C")).reverse)
    (((atoms.filter (fun a => !(a.atom = "C" : Bool))).filter
      (fun a => a.atom = "H")).reverse)
    ((atoms.filter (fun a => !(a.atom = "C" : Bool))).filter
      (fun a => !(a.atom = "H" : Bool)))
    (collectKeys ((atoms.filter (fun a => !(a.atom = "C" : Bool))).filter
      (fun a => !(a.atom = "H" : Bool))) [])
    ?_ ?_ ?_ ?_
  · intro a ha
    rw [List.mem_reverse] at ha
    exact of_decide_eq_true (List.mem_filter.mp ha).2
  · intro a ha
    rw [List.mem_reverse] at ha
    exact of_decide_eq_true (List.mem_filter.mp ha).2
  · intro a ha
    have h1 := List.mem_filter.mp ha
    have h2 := List.mem_filter.mp h1.1
    constructor
    · have h3 := h2.2
      rw [Bool.not_eq_eq_eq_not, Bool.not_true] at h3
      exact of_decide_eq_false h3
    · have h3 := h1.2
      rw [Bool.not_eq_eq_eq_not, Bool.not_true] at h3
      exact of_decide_eq_false h3
  · exact collectKeys_nodup _ [] List.nodup_nil

/-- C6: with Hill-system ordering enabled, the atom tally is ordered by
`hillRel`: carbons first (by charge), then hydrogens (by charge), then
the remaining elements alphabetically, same-element entries by charge. -/
theorem claim6_hill_order (m : Molecule) (opts : ICountAtoms)
    (h : opts.hillSystemOrder.getD true = true) :
    List.Pairwise hillRel (m.countAtoms opts) := by
  unfold Molecule.countAtoms
  dsimp only
  rw [h, if_pos rfl]
  exact hillOrderStage_pairwise _

/-- Witness for C6 at `formulaMolecule` with default options. -/
theorem claim6_hill_order_witness :
    List.Pairwise hillRel (formulaMolecule.countAtoms
      { splitGroups := none, hillSystemOrder := none, ignoreCharge := none }) :=
  claim6_hill_order formulaMolecule
    { splitGroups := none, hillSystemOrder := none, ignoreCharge := none }
    (by decide)


/-- Round-trip instances in support of the structural round-trip
property: for a chain and for a ring input, parsing, re-serializing with
`generateSMILES` and re-parsing preserves the per-molecule atom tallies
and the bond-symbol tallies. -/
theorem roundTrip_instances :
    roundTripHolds ['C', 'C', 'O'] = .ok true ∧
    roundTripHolds ['C', '1', 'C', 'C', '1'] = .ok true := by
  decide

end SmilesParser
